import Mathlib

/-!
Verification of the configuration-versioning layer of ggshield
(`ggshield/core/config/user_config.py` and `ggshield/core/config/utils.py`).

The Python data is shallowly embedded: YAML/JSON-like values become the
inductive `Value`; Python dicts become insertion-ordered association lists
(`List (String × Value)`), Python sets become insertion-ordered duplicate-free
lists of strings; `datetime` values become minute counts with an optional
timezone offset; fallible code returns `Except PyErr _` or `Option _`.
-/

namespace GGShield

/-- A Python runtime error relevant to this code base. -/
inductive PyErr where
  /-- `KeyError` raised by `reference_dct[key]` / `data.pop(key)`. -/
  | keyError (key : String)
  /-- `TypeError` / `AttributeError` from applying an operation to a value of
  the wrong runtime type. -/
  | typeError
  /-- ggshield's `ParseError`. -/
  | parseError (msg : String)
  /-- ggshield's `UnexpectedError`. -/
  | unexpectedError (msg : String)
  /-- `marshmallow.ValidationError` raised by an external model's schema. -/
  | validationError
deriving DecidableEq, Repr

/-- A YAML/Python value as manipulated by the configuration code.
Dicts are insertion-ordered association lists; sets are insertion-ordered
lists without duplicates. -/
inductive Value where
  | vnull
  | vbool (b : Bool)
  | vint (n : Int)
  | vstr (s : String)
  | vlist (xs : List Value)
  | vset (xs : List String)
  | vdict (entries : List (String × Value))

/-- A Python dict: insertion-ordered association list. -/
abbrev Obj := List (String × Value)

/-- Lookup in a dict (`data[key]` / `data.get(key)` when the key is present). -/
def assocLookup : Obj → String → Option Value
  | [], _ => none
  | (k, v) :: rest, key => if k = key then some v else assocLookup rest key

/-- Python dict assignment `data[key] = value`: update in place if the key is
present, otherwise append at the end (insertion order). -/
def assocSet : Obj → String → Value → Obj
  | [], key, value => [(key, value)]
  | (k, v) :: rest, key, value =>
    if k = key then (k, value) :: rest else (k, v) :: assocSet rest key value

/-- Python `data.pop(key)`'s effect on the dict: remove the entry. -/
def assocRemove : Obj → String → Obj
  | [], _ => []
  | (k, v) :: rest, key =>
    if k = key then rest else (k, v) :: assocRemove rest key

/-- The keys of a dict, in insertion order. -/
def objKeys (es : Obj) : List String := es.map Prod.fst

/-! ## update_dict_from_other (`utils.py`) -/

/-- Python `dst_set.update(src_set)`: add the source's elements to the
destination set. Sets are modelled as duplicate-free lists in a deterministic
order, so the union appends the new elements in source order. -/
def pyUnion (a b : List String) : List String :=
  b.foldl (fun acc x => if x ∈ acc then acc else acc ++ [x]) a

/-- Is this value Python-falsy `None`? (`if value is None: continue`). -/
def isVNull : Value → Bool
  | .vnull => true
  | _ => false

mutual

/-- `update_dict_from_other(dst, src)`: for each `src` item in order, skip
null values, extend lists, union sets, recurse into dicts (creating missing
destination collections), overwrite scalars. `none` models the Python
`AttributeError`/`TypeError` raised when the destination value exists with an
incompatible runtime type (`.extend`/`.update`/subscript on the wrong type);
the recursive call on a non-dict destination only survives when every nested
source value is null, since the loop then never touches the destination. -/
def update_dict_from_other (dst : Obj) : Obj → Option Obj
  | [] => some dst
  | (name, value) :: rest =>
    match updateOne dst name value with
    | some d => update_dict_from_other d rest
    | none => none

/-- One iteration of the `update_dict_from_other` loop for key `name`. -/
def updateOne (dst : Obj) (name : String) : Value → Option Obj
  | .vnull => some dst
  | .vlist xs =>
    match assocLookup dst name with
    | none => some (assocSet dst name (.vlist ([] ++ xs)))
    | some (.vlist ys) => some (assocSet dst name (.vlist (ys ++ xs)))
    | some _ => none
  | .vset s =>
    match assocLookup dst name with
    | none => some (assocSet dst name (.vset (pyUnion [] s)))
    | some (.vset t) => some (assocSet dst name (.vset (pyUnion t s)))
    | some _ => none
  | .vdict d =>
    match assocLookup dst name with
    | none =>
      match update_dict_from_other [] d with
      | some d2 => some (assocSet dst name (.vdict d2))
      | none => none
    | some (.vdict d0) =>
      match update_dict_from_other d0 d with
      | some d2 => some (assocSet dst name (.vdict d2))
      | none => none
    | some _ => if d.all (fun kv => isVNull kv.2) then some dst else none
  | .vbool b => some (assocSet dst name (.vbool b))
  | .vint n => some (assocSet dst name (.vint n))
  | .vstr s => some (assocSet dst name (.vstr s))

end

mutual

/-- Type compatibility of a source dict against a destination dict: at every
source key whose value is a collection, the destination either lacks the key
or holds the same kind of collection (recursively for dicts). This is the
precondition under which the merge never hits a Python type error. -/
def compat (dst : Obj) : Obj → Bool
  | [] => true
  | (k, v) :: rest => compatAt (assocLookup dst k) v && compat dst rest

/-- Compatibility of one source value against the destination's value at the
same key (`none` when the destination lacks the key). -/
def compatAt : Option Value → Value → Bool
  | _, .vnull => true
  | none, .vdict d => compat [] d
  | none, _ => true
  | some (.vlist _), .vlist _ => true
  | some (.vset _), .vset _ => true
  | some (.vdict d0), .vdict d => compat d0 d
  | some _, .vlist _ => false
  | some _, .vset _ => false
  | some _, .vdict _ => false
  | some _, _ => true

end

/-- The destination's list at `k` (`dst.setdefault(name, [])` when absent). -/
def dstList (dst : Obj) (k : String) : List Value :=
  match assocLookup dst k with
  | some (.vlist ys) => ys
  | _ => []

/-- The destination's set at `k` (`dst.setdefault(name, set())` when absent). -/
def dstSet (dst : Obj) (k : String) : List String :=
  match assocLookup dst k with
  | some (.vset t) => t
  | _ => []

/-- The destination's dict at `k` (`dst.setdefault(name, {})` when absent). -/
def dstDict (dst : Obj) (k : String) : Obj :=
  match assocLookup dst k with
  | some (.vdict d0) => d0
  | _ => []

mutual

/-- Source-side well-formedness: a Python dict has no duplicate keys, at any
nesting level of dict values. -/
def srcWF : Obj → Bool
  | [] => true
  | (k, v) :: rest => decide (k ∉ objKeys rest) && srcWFVal v && srcWF rest

/-- Well-formedness of one source value (recurse into dict values). -/
def srcWFVal : Value → Bool
  | .vdict d => srcWF d
  | _ => true

end

/-- The per-key outcome of the layer merge: keys absent or null in the source
leave the destination value; list/set values extend/union the destination
collection (created empty when missing); dict values merge recursively into
the destination dict (created empty when missing); any other value
overwrites. -/
def mergedAtProp (dst out : Obj) (k : String) : Option Value → Prop
  | none => assocLookup out k = assocLookup dst k
  | some .vnull => assocLookup out k = assocLookup dst k
  | some (.vlist xs) => assocLookup out k = some (.vlist (dstList dst k ++ xs))
  | some (.vset s) => assocLookup out k = some (.vset (pyUnion (dstSet dst k) s))
  | some (.vdict d) => ∃ sub, update_dict_from_other (dstDict dst k) d = some sub ∧
      assocLookup out k = some (.vdict sub)
  | some (.vbool b) => assocLookup out k = some (.vbool b)
  | some (.vint n) => assocLookup out k = some (.vint n)
  | some (.vstr s) => assocLookup out k = some (.vstr s)

/-! ## remove_common_dict_items (`utils.py`) -/

mutual

/-- Python `==` on embedded values: numeric cross-comparison of bools and
ints, elementwise list comparison, order-insensitive set and dict
comparison, `False` across different kinds otherwise. -/
def pyEq : Value → Value → Bool
  | .vnull, .vnull => true
  | .vbool a, .vbool b => a = b
  | .vbool a, .vint m => (if a then (1 : Int) else 0) = m
  | .vint m, .vbool a => m = (if a then (1 : Int) else 0)
  | .vint a, .vint b => a = b
  | .vstr a, .vstr b => a = b
  | .vlist xs, .vlist ys => pyEqList xs ys
  | .vset a, .vset b => a.all (· ∈ b) && b.all (· ∈ a)
  | .vdict a, .vdict b => a.length = b.length && pyEqEntries a b
  | _, _ => false
termination_by v _ => sizeOf v

/-- Elementwise Python `==` on lists. -/
def pyEqList : List Value → List Value → Bool
  | [], [] => true
  | x :: xs, y :: ys => pyEq x y && pyEqList xs ys
  | _, _ => false
termination_by xs _ => sizeOf xs

/-- Python dict `==`: every entry of the first dict matches the second
(lengths being equal, this is mutual inclusion). -/
def pyEqEntries : Obj → Obj → Bool
  | [], _ => true
  | (k, v) :: rest, b =>
    (match assocLookup b k with
     | some w => pyEq v w
     | none => false) && pyEqEntries rest b
termination_by a _ => sizeOf a

end

/-- Python subscript `reference_dct[key]`: `KeyError` when the key is absent
from a dict, `TypeError` when the subscripted value is not a dict. -/
def pySubscript : Value → String → Except PyErr Value
  | .vdict rs, k =>
    match assocLookup rs k with
    | some v => Except.ok v
    | none => Except.error (.keyError k)
  | _, _ => Except.error .typeError

/-- `remove_common_dict_items(dct, reference_dct)`: copy of `dct` without the
items equal to the reference's, recursing into dict values (dropping them
when the recursive diff is empty); `reference_dct[key]` is looked up for
every key of `dct`, so a key absent from the reference raises. -/
def remove_common_dict_items (dct : Obj) (reference_dct : Value) :
    Except PyErr Obj :=
  match dct with
  | [] => Except.ok []
  | (key, value) :: rest =>
    match pySubscript reference_dct key with
    | Except.error e => Except.error e
    | Except.ok reference_value =>
      match value with
      | .vdict d =>
        match remove_common_dict_items d reference_value with
        | Except.error e => Except.error e
        | Except.ok d2 =>
          if d2.isEmpty then remove_common_dict_items rest reference_dct
          else (remove_common_dict_items rest reference_dct).map
            (fun r => (key, Value.vdict d2) :: r)
      | v =>
        if pyEq v reference_value then remove_common_dict_items rest reference_dct
        else (remove_common_dict_items rest reference_dct).map
          (fun r => (key, v) :: r)
termination_by sizeOf dct

/-- Is every key of `dct`, recursively through nested dict values, present in
the reference at the corresponding level? This is exactly the precondition
under which `remove_common_dict_items` raises nothing. -/
def keysSub : Obj → Value → Bool
  | [], _ => true
  | (k, v) :: rest, ref =>
    (match pySubscript ref k with
     | Except.ok rv =>
       (match v with
        | .vdict d => keysSub d rv
        | _ => true)
     | Except.error _ => false) && keysSub rest ref
termination_by dct _ => sizeOf dct

/-- Did this call return without raising? -/
def exceptIsOk : Except PyErr Obj → Bool
  | .ok _ => true
  | .error _ => false

/-- The external ignored-match model (`pygitguardian` / `ggshield.core.types`).
Modelled from the spec: "opaque structure with `match: string`,
`name: optional string`"; a missing name is the falsy empty string. -/
structure IgnoredMatch where
  name : String
  match_ : String
deriving DecidableEq, Repr

/-! ## replace_in_keys (`utils.py`) -/

/-- Python `old_char in key` for a one-character pattern. -/
def charIn (c : Char) (s : String) : Bool := s.data.contains c

/-- Python `key.replace(old_char, new_char)` for one-character patterns:
replace every occurrence of the character. -/
def replaceChar (old new : Char) (s : String) : String :=
  ⟨s.data.map (fun ch => if ch = old then new else ch)⟩

mutual

/-- `replace_in_keys(data, old_char, new_char)`: recursively rewrite
`old_char` to `new_char` in all dict keys, descending into dict values and
list elements; other values are untouched. The Python loop iterates over a
snapshot of `data.items()`, rewrites each value in place, then re-keys the
entry (`data[new_key] = data.pop(key)`), which moves it to the end unless the
new key already exists. -/
def replace_in_keys (old new : Char) : Value → Value
  | .vdict entries => .vdict (replaceKeysLoop old new entries entries)
  | .vlist xs => .vlist (replaceKeysList old new xs)
  | v => v

/-- The `for key, value in list(data.items())` loop of `replace_in_keys`:
the first list is the snapshot being iterated, the second the current dict.
Each entry's value is rewritten in place (reflected at its key when the key
is still present), then the entry is re-keyed when the key contains
`old_char`. -/
def replaceKeysLoop (old new : Char) : List (String × Value) → Obj → Obj
  | [], d => d
  | (key, value) :: snap, d =>
    let v2 := replace_in_keys old new value
    let d2 := if (assocLookup d key).isSome then assocSet d key v2 else d
    let d3 :=
      if charIn old key then
        match assocLookup d2 key with
        | some cur => assocSet (assocRemove d2 key) (replaceChar old new key) cur
        | none => d2
      else d2
    replaceKeysLoop old new snap d3

/-- `replace_in_keys` over the elements of a list value. -/
def replaceKeysList (old new : Char) : List Value → List Value
  | [] => []
  | x :: xs => replace_in_keys old new x :: replaceKeysList old new xs

end

/-- `replace_in_keys` applied to a dict, as the config loader does. -/
def replaceObjKeys (old new : Char) (d : Obj) : Obj :=
  replaceKeysLoop old new d d

/-! ## UserV1Config.load_v1_dict (`user_config.py`) -/

/-- Python truthiness of an embedded value. -/
def pyFalsy : Value → Bool
  | .vnull => true
  | .vbool b => !b
  | .vint n => n = 0
  | .vstr s => s.isEmpty
  | .vlist xs => xs.isEmpty
  | .vset xs => xs.isEmpty
  | .vdict es => es.isEmpty

/-- Modelled from the spec: the dashboard-URL conversion collaborator
`api_url_to_dashboard_url(url, warn) -> string`
(`ggshield.core.url_utils.api_to_dashboard_url`, not under `src/`), per the
spec's example mapping `https://api.example.com` to
`https://dashboard.example.com`: rewrite an `api.`-hosted URL to its
`dashboard.` form. -/
def api_to_dashboard_url (url : String) : String :=
  if url.startsWith "https://api." then "https://dashboard." ++ url.drop 12
  else url

/-- Modelled from the spec: the external ignored-match model (§6,
`IgnoredMatch.from_dict`, not under `src/`): "constructible from a mapping"
with `match: string` and optional `name: string`; any other shape is a
schema validation error. -/
def ignoredMatchFromDict : Value → Except PyErr IgnoredMatch
  | .vdict es =>
    match assocLookup es "match" with
    | some (.vstr m) =>
      match assocLookup es "name" with
      | some (.vstr n) => Except.ok ⟨n, m⟩
      | some .vnull => Except.ok ⟨"", m⟩
      | none => Except.ok ⟨"", m⟩
      | some _ => Except.error .validationError
    | _ => Except.error .validationError
  | _ => Except.error .validationError

/-- Modelled from the spec: the external ignored-match model's `to_dict`
(§6: "serializable to a mapping"). -/
def ignoredMatchToDict (m : IgnoredMatch) : Value :=
  .vdict [("name", .vstr m.name), ("match", .vstr m.match_)]

/-- `UserV1Config.matches_ignore_to_dict`: rewrite hash-only (bare string)
entries of `data["matches_ignore"]` to `{"name": "", "match": <string>}`.
Note the underscore key: `data.get("matches_ignore")`. Falsy values (absent,
`None`, empty collections) leave the data unchanged; enumeration with index
assignment on a non-list truthy value is modelled as a type error. -/
def matches_ignore_to_dict (data : Obj) : Except PyErr Obj :=
  match assocLookup data "matches_ignore" with
  | none => Except.ok data
  | some v =>
    if pyFalsy v then Except.ok data
    else
      match v with
      | .vlist entries =>
        Except.ok (assocSet data "matches_ignore"
          (.vlist (entries.map (fun m =>
            match m with
            | .vstr s => .vdict [("name", .vstr ""), ("match", .vstr s)]
            | other => other))))
      | _ => Except.error .typeError

/-- The inner `copy_if_set(dct, dst_key, src_key)` of `load_v1_dict`:
copy `data[src_key]` into `dct[dst_key]` when the source key is present
(even with a `None` value); do nothing when absent. -/
def copy_if_set (data : Obj) (dct : Obj) (dstKey srcKey : String) : Obj :=
  match assocLookup data srcKey with
  | none => dct
  | some value => assocSet dct dstKey value

/-- `IgnoredMatch.from_dict(secret).to_dict()` over the raw
`matches-ignore` entries. -/
def mapIgnoredMatches (entries : List Value) : Except PyErr (List Value) :=
  entries.mapM (fun s => (ignoredMatchFromDict s).map ignoredMatchToDict)

/-- The `ignored-matches` block of `load_v1_dict`: when
`data.get("matches-ignore")` is truthy, convert each entry through the
external model and hyphenate the resulting keys; a truthy non-list value
fails (ints are not iterable; iterating a string/set/dict feeds bare strings
to the external model, a validation error). -/
def v1SecretMatches (data : Obj) : Except PyErr Obj :=
  match assocLookup data "matches-ignore" with
  | none => Except.ok []
  | some v =>
    if pyFalsy v then Except.ok []
    else
      match v with
      | .vlist entries =>
        (mapIgnoredMatches entries).map (fun l =>
          [("ignored-matches", replace_in_keys '_' '-' (.vlist l))])
      | .vint _ => Except.error .typeError
      | .vbool _ => Except.error .typeError
      | _ => Except.error .validationError

/-- The `api-url` block of `load_v1_dict`: pop `api-url`; when `instance`
is absent, store the converted URL under `instance` (never clobbering an
existing `instance`). -/
def v1ApiUrlStep (data : Obj) : Except PyErr Obj :=
  match assocLookup data "api-url" with
  | none => Except.ok data
  | some apiUrl =>
    let d := assocRemove data "api-url"
    if (assocLookup d "instance").isSome then Except.ok d
    else
      match apiUrl with
      | .vstr u => Except.ok (assocSet d "instance"
          (.vstr (api_to_dashboard_url u)))
      | _ => Except.error .typeError

/-- The deprecation messages appended by `load_v1_dict` (presence checks for
the two dropped keys, in source order). -/
def v1Messages (data2 : Obj) : List String :=
  (if (assocLookup data2 "all-policies").isSome then
    ["The `all-policies` option has been deprecated and is now ignored."]
  else []) ++
  (if (assocLookup data2 "ignore-default-excludes").isSome then
    ["The `ignore-default-exclude` option has been deprecated and is now ignored."]
  else [])

/-- The result-mapping assembly of `load_v1_dict`: relocate the secret-only
keys into the `secret` sub-mapping (always present) and carry the root
scalars through, each copied only when present. -/
def v1Assemble (data2 secret0 : Obj) : Obj :=
  let secret1 := copy_if_set data2 secret0 "show-secrets" "show-secrets"
  let secret2 := copy_if_set data2 secret1 "ignored-detectors" "banlisted-detectors"
  let secret3 := copy_if_set data2 secret2 "ignored-paths" "paths-ignore"
  let dct0 : Obj := [("secret", .vdict secret3)]
  let dct1 := copy_if_set data2 dct0 "instance" "instance"
  let dct2 := copy_if_set data2 dct1 "exit-zero" "exit-zero"
  let dct3 := copy_if_set data2 dct2 "verbose" "verbose"
  let dct4 := copy_if_set data2 dct3 "allow-self-signed" "allow-self-signed"
  copy_if_set data2 dct4 "max-commits-for-hook" "max-commits-for-hook"

/-- `UserV1Config.load_v1_dict(data, deprecation_messages)`: transform a v1
mapping (hyphenated keys) into a v2 mapping, returning the new mapping and
the deprecation messages this call appends. -/
def load_v1_dict (data : Obj) : Except PyErr (Obj × List String) :=
  (v1ApiUrlStep data).bind (fun data1 =>
  (matches_ignore_to_dict data1).bind (fun data2 =>
  (v1SecretMatches data2).map (fun secret0 =>
    (v1Assemble data2 secret0, v1Messages data2))))

/-! ## UserConfig._load_config_dict (`user_config.py`) -/

/-- Python `str()` of an embedded value as used in the version error
message; container rendering is abbreviated (only scalar versions are
exercised by the claims). -/
def pyStr : Value → String
  | .vnull => "None"
  | .vbool b => if b then "True" else "False"
  | .vint n => toString n
  | .vstr s => s
  | .vlist _ => "[...]"
  | .vset _ => "{...}"
  | .vdict _ => "{...}"

/-- Python `config_version == n` for an integer literal `n`
(bools compare equal to 0/1). -/
def pyEqInt (v : Value) (n : Int) : Bool := pyEq v (.vint n)

/-- The second half of `_fix_ignore_known_secrets`: relocate the popped
value under `secret` unless the key is already there. `setdefault("secret",
{})` on a non-dict value is modelled as a type error. -/
def fixIKSAssign (d : Obj) (value : Value) : Except PyErr Obj :=
  match assocLookup d "secret" with
  | none =>
    Except.ok (assocSet d "secret"
      (.vdict [("ignore-known-secrets", value)]))
  | some (.vdict sd) =>
    if (assocLookup sd "ignore-known-secrets").isSome ||
        (assocLookup sd "ignore_known_secrets").isSome then
      Except.ok d
    else
      Except.ok (assocSet d "secret"
        (.vdict (assocSet sd "ignore-known-secrets" value)))
  | some _ => Except.error .typeError

/-- `_fix_ignore_known_secrets(data)`: pop a root-level
`ignore-known-secrets` (hyphen first, then underscore; a pop removes the
key even when its value is `None`), and move the first non-null value under
`secret` unless `secret` already defines the key. -/
def fix_ignore_known_secrets (data : Obj) : Except PyErr Obj :=
  let v1 := (assocLookup data "ignore-known-secrets").getD .vnull
  let data1 := assocRemove data "ignore-known-secrets"
  if !isVNull v1 then fixIKSAssign data1 v1
  else
    let v2 := (assocLookup data1 "ignore_known_secrets").getD .vnull
    let data2 := assocRemove data1 "ignore_known_secrets"
    if !isVNull v2 then fixIKSAssign data2 v2
    else Except.ok data2

/-- The deprecation message appended for a version-1 file. -/
def deprecationMsg (path : String) : String :=
  path ++ " uses a deprecated configuration file format." ++
    " Run `ggshield config migrate` to migrate it to the latest version."

/-- `UserConfig._load_config_dict(config_path, deprecation_messages)`.
`loaded` is what `load_yaml_dict` returned (`none` for a missing file; the
invalid-YAML `ValueError` paths are outside the claims). A missing file or a
falsy (empty) mapping becomes `{"version": 2}`; keys are hyphenated; the
`version` key is popped with default 1; version 2 gets the known-secrets
fix-up, version 1 gets a deprecation message and the v1 transform, anything
else is an `UnexpectedError` naming the version. Returns the mapping and
the deprecation messages this call appends. -/
def loadConfigDict (path : String) (loaded : Option Obj) :
    Except PyErr (Obj × List String) :=
  let dct0 :=
    match loaded with
    | some d => if d.isEmpty then [("version", Value.vint 2)] else d
    | none => [("version", Value.vint 2)]
  let dct1 := replaceObjKeys '_' '-' dct0
  let version := (assocLookup dct1 "version").getD (.vint 1)
  let dct2 := assocRemove dct1 "version"
  if pyEqInt version 2 then
    (fix_ignore_known_secrets dct2).map (fun d => (d, []))
  else if pyEqInt version 1 then
    match load_v1_dict dct2 with
    | Except.ok (d, msgs) => Except.ok (d, deprecationMsg path :: msgs)
    | Except.error e => Except.error e
  else
    Except.error (.unexpectedError
      ("Don't know how to load config version " ++ pyStr version))

/-- Is this load result ggshield's `ParseError`? -/
def isParseErrorResult : Except PyErr (Obj × List String) → Bool
  | .error (.parseError _) => true
  | _ => false

/-! ## SecretConfig.add_ignored_match (`user_config.py`) -/

/-- `SecretConfig.add_ignored_match`: scan `ignored_matches` for an entry with
the same `match`; if found, backfill its `name` when that name is falsy and
stop; otherwise append the new entry at the end. -/
def add_ignored_match : List IgnoredMatch → IgnoredMatch → List IgnoredMatch
  | [], secret => [secret]
  | m :: rest, secret =>
    if m.match_ = secret.match_ then
      (if m.name = "" then { m with name := secret.name } else m) :: rest
    else
      m :: add_ignored_match rest secret

/-! ## remove_expired_elements (`user_config.py`) -/

/-- `ConfigIgnoredElement`: base of the ignorable config elements. `until_` is
field `until`, a UTC timestamp in minutes (`none` when absent). -/
structure ConfigIgnoredElement where
  comment : Option String
  until_ : Option Int
deriving DecidableEq, Repr

/-- `ignored.until and ignored.until <= now`: a `datetime` is always truthy,
so this tests that `until` is set and not in the future. -/
def isExpired (now : Int) (e : ConfigIgnoredElement) : Bool :=
  match e.until_ with
  | some t => t ≤ now
  | none => false

/-- The loop of `remove_expired_elements`: `for idx in range(len(lst)-1, -1, -1)`,
popping expired elements from `lst` and inserting them at the front of
`expired`. The `Nat` argument is the next index to process plus one; indices
below the current one are untouched by `pop`, so iterating downward is sound. -/
def removeExpiredLoop (now : Int) :
    List ConfigIgnoredElement → List ConfigIgnoredElement → Nat →
    List ConfigIgnoredElement × List ConfigIgnoredElement
  | lst, expired, 0 => (lst, expired)
  | lst, expired, idx + 1 =>
    match lst[idx]? with
    | none => removeExpiredLoop now lst expired idx
    | some ignored =>
      if isExpired now ignored then
        removeExpiredLoop now (lst.eraseIdx idx) (ignored :: expired) idx
      else
        removeExpiredLoop now lst expired idx

/-- `remove_expired_elements(lst)`: mutates `lst` down to the active elements
and returns the expired ones; modelled as returning the pair
(final `lst`, `expired`). `now` is passed explicitly. -/
def remove_expired_elements (now : Int) (lst : List ConfigIgnoredElement) :
    List ConfigIgnoredElement × List ConfigIgnoredElement :=
  removeExpiredLoop now lst [] lst.length

/-! ## ConfigIgnoredElement until parsing (`user_config.py`) -/

/-- A Python `datetime`: wall-clock minutes since a fixed epoch together
with an optional fixed timezone offset (minutes east of UTC); `none` is a
naive datetime. -/
structure PyDatetime where
  wall : Int
  tzOffset : Option Int
deriving DecidableEq, Repr

/-- `d.astimezone(timezone.utc)` in a process whose local offset is
`localOffset` minutes: a naive datetime is presumed to represent local time;
the result denotes the same instant with UTC offset 0. -/
def astimezone_utc (localOffset : Int) (d : PyDatetime) : PyDatetime :=
  match d.tzOffset with
  | none => ⟨d.wall - localOffset, some 0⟩
  | some o => ⟨d.wall - o, some 0⟩

/-- The raw `until` value of an ignore element as it reaches the
`ConfigIgnoredElement` hooks: absent/None, a bare `YYYY-MM-DD` date string
(`midnight` is that date's midnight, 00:00:00, in wall-clock minutes), or a
full timestamp. -/
inductive RawUntil where
  | rnone
  | rdate (midnight : Int)
  | rdatetime (d : PyDatetime)
deriving DecidableEq, Repr

/-- The `parse_date` pre-load hook: a bare date is re-rendered through
`str(datetime.strptime(raw, "%Y-%m-%d"))` as the naive datetime string
`YYYY-MM-DD 00:00:00` (strptime attaches no timezone); everything else
passes through for schema validation. -/
def parse_date : RawUntil → RawUntil
  | .rdate m => .rdatetime ⟨m, none⟩
  | r => r

/-- The `datetime_to_utc` post-load hook composed after `parse_date` and the
schema's datetime parsing: a non-null `until` is normalized with
`astimezone(timezone.utc)`. -/
def load_until (localOffset : Int) (raw : RawUntil) : Option PyDatetime :=
  match parse_date raw with
  | .rnone => none
  | .rdate m => some (astimezone_utc localOffset ⟨m, none⟩)
  | .rdatetime d => some (astimezone_utc localOffset d)

mutual

/-- Key-hygiene of a value for one direction of the key rewrite: at every
nesting depth (dict values and list elements alike) dict keys avoid the
character `bad` and are duplicate-free. For the rewrite `old → new`, taking
`bad := new` rules out both overwriting collisions and irreversible keys. -/
def goodVal (bad : Char) : Value → Bool
  | .vdict es => goodObj bad es
  | .vlist xs => goodList bad xs
  | _ => true

/-- `goodVal` over the entries of a dict. -/
def goodObj (bad : Char) : Obj → Bool
  | [] => true
  | (k, v) :: rest =>
    !charIn bad k && decide (k ∉ objKeys rest) && goodVal bad v &&
      goodObj bad rest

/-- `goodVal` over the elements of a list. -/
def goodList (bad : Char) : List Value → Bool
  | [] => true
  | x :: xs => goodVal bad x && goodList bad xs

end

/-- The exact outcome of one `replace_in_keys` pass over a dict with hygienic
keys: entries whose key lacks `old_char` stay in place with rewritten values;
entries whose key contains it are re-keyed and moved to the end, in their
original relative order. -/
def passResult (old new : Char) (es : Obj) : Obj :=
  (es.filter (fun kv => !charIn old kv.1)).map
    (fun kv => (kv.1, replace_in_keys old new kv.2)) ++
  (es.filter (fun kv => charIn old kv.1)).map
    (fun kv => (replaceChar old new kv.1, replace_in_keys old new kv.2))

mutual

/-- The two halves of a dict after the underscore→hyphen→underscore round
trip: entries whose key lacks an underscore (kept in place) and entries
whose key contains one (moved to the end), values rewritten recursively;
every key is restored to its original spelling. -/
def rtObj : Obj → Obj × Obj
  | [] => ([], [])
  | (k, v) :: rest =>
    let p := rtObj rest
    if charIn '_' k then (p.1, (k, rtResultVal v) :: p.2)
    else ((k, rtResultVal v) :: p.1, p.2)

/-- The predicted result of the key-rewrite round trip on a hygienic value:
same keys at every level, each dict reordered (underscore-free entries
first), lists rewritten elementwise, scalars untouched. -/
def rtResultVal : Value → Value
  | .vdict es => .vdict ((rtObj es).1 ++ (rtObj es).2)
  | .vlist xs => .vlist (rtResultList xs)
  | v => v

/-- `rtResultVal` over list elements. -/
def rtResultList : List Value → List Value
  | [] => []
  | x :: xs => rtResultVal x :: rtResultList xs

end

mutual

/-- Key-shape equivalence: both values have the same dict-key multiset at
every nesting depth (dict values compared through their keys, list elements
pointwise); non-container values are indistinguishable for this purpose. -/
def sameKeyShape : Value → Value → Bool
  | .vdict a, .vdict b =>
    decide ((objKeys a : Multiset String) = (objKeys b : Multiset String)) &&
      sameKeyEntries a b
  | .vlist xs, .vlist ys => sameKeyList xs ys
  | .vdict _, _ => false
  | _, .vdict _ => false
  | .vlist _, _ => false
  | _, .vlist _ => false
  | _, _ => true
termination_by v _ => sizeOf v

/-- Each entry of the first dict has a same-shaped value at the same key of
the second dict. -/
def sameKeyEntries : Obj → Obj → Bool
  | [], _ => true
  | (k, v) :: rest, b =>
    (match assocLookup b k with
     | some w => sameKeyShape v w
     | none => false) && sameKeyEntries rest b
termination_by a _ => sizeOf a

/-- Pointwise key-shape equivalence of list elements. -/
def sameKeyList : List Value → List Value → Bool
  | [], [] => true
  | x :: xs, y :: ys => sameKeyShape x y && sameKeyList xs ys
  | _, _ => false
termination_by xs _ => sizeOf xs

end

/-! ## Theorems -/

theorem assocLookup_assocSet (dst : Obj) (name : String) (w : Value) (k : String) :
    assocLookup (assocSet dst name w) k =
      if name = k then some w else assocLookup dst k := by
  induction dst with
  | nil =>
    by_cases h : name = k <;> simp [assocSet, assocLookup, h]
  | cons e rest ih =>
    obtain ⟨k0, v0⟩ := e
    by_cases h0 : k0 = name
    · subst h0
      by_cases h : k0 = k <;> simp [assocSet, assocLookup, h]
    · by_cases h : k0 = k
      · subst h
        have : ¬name = k0 := fun hc => h0 hc.symm
        simp [assocSet, assocLookup, h0, this]
      · simp [assocSet, assocLookup, h0, h, ih]

theorem assocLookup_eq_none_of_not_mem {l : Obj} {k : String}
    (h : k ∉ objKeys l) : assocLookup l k = none := by
  induction l with
  | nil => rfl
  | cons e rest ih =>
    obtain ⟨k0, v0⟩ := e
    simp only [objKeys, List.map_cons, List.mem_cons] at h
    push_neg at h
    have h0 : k0 ≠ k := fun hc => h.1 hc.symm
    simp only [assocLookup, if_neg h0]
    exact ih (by simpa [objKeys] using h.2)

theorem compat_congr (src : Obj) (dst d1 : Obj)
    (h : ∀ k ∈ objKeys src, assocLookup d1 k = assocLookup dst k) :
    compat d1 src = compat dst src := by
  induction src with
  | nil => rfl
  | cons e rest ih =>
    obtain ⟨k, v⟩ := e
    rw [compat, compat, h k (by simp [objKeys]),
      ih (fun k' hk' => h k' (by simp [objKeys] at hk' ⊢; exact Or.inr hk'))]

theorem updateOne_lookup_ne {dst d1 : Obj} {name : String} {v : Value}
    (h : updateOne dst name v = some d1) :
    ∀ k, name ≠ k → assocLookup d1 k = assocLookup dst k := by
  intro k hk
  cases v with
  | vnull =>
    rw [updateOne] at h
    injection h with h
    rw [← h]
  | vbool b =>
    rw [updateOne] at h
    injection h with h
    rw [← h, assocLookup_assocSet, if_neg hk]
  | vint n =>
    rw [updateOne] at h
    injection h with h
    rw [← h, assocLookup_assocSet, if_neg hk]
  | vstr s =>
    rw [updateOne] at h
    injection h with h
    rw [← h, assocLookup_assocSet, if_neg hk]
  | vlist xs =>
    rw [updateOne] at h
    split at h
    · injection h with h
      rw [← h, assocLookup_assocSet, if_neg hk]
    · injection h with h
      rw [← h, assocLookup_assocSet, if_neg hk]
    · exact absurd h (by simp)
  | vset s =>
    rw [updateOne] at h
    split at h
    · injection h with h
      rw [← h, assocLookup_assocSet, if_neg hk]
    · injection h with h
      rw [← h, assocLookup_assocSet, if_neg hk]
    · exact absurd h (by simp)
  | vdict d =>
    rw [updateOne] at h
    split at h
    · split at h
      · injection h with h
        rw [← h, assocLookup_assocSet, if_neg hk]
      · exact absurd h (by simp)
    · split at h
      · injection h with h
        rw [← h, assocLookup_assocSet, if_neg hk]
      · exact absurd h (by simp)
    · split at h
      · injection h with h
        rw [← h]
      · exact absurd h (by simp)

theorem mergedAtProp_congr {dst d1 out : Obj} {k : String}
    (h : assocLookup d1 k = assocLookup dst k) (sv : Option Value) :
    mergedAtProp d1 out k sv ↔ mergedAtProp dst out k sv := by
  cases sv with
  | none => simp [mergedAtProp, h]
  | some v =>
    cases v <;> simp [mergedAtProp, h, dstList, dstSet, dstDict]

theorem mergedAtProp_out_congr {dst d1 out : Obj} {k : String}
    (h : assocLookup out k = assocLookup d1 k) (sv : Option Value)
    (hp : mergedAtProp dst d1 k sv) : mergedAtProp dst out k sv := by
  cases sv with
  | none => simpa [mergedAtProp, h] using hp
  | some v => cases v <;> simpa [mergedAtProp, h] using hp

theorem update_dict_from_other_aux : ∀ (n : Nat) (src dst : Obj),
    sizeOf src ≤ n → srcWF src = true → compat dst src = true →
    ∃ out, update_dict_from_other dst src = some out ∧
      ∀ k, mergedAtProp dst out k (assocLookup src k) := by
  intro n
  induction n with
  | zero =>
    intro src dst hsz _ _
    cases src with
    | nil =>
      exact ⟨dst, by rw [update_dict_from_other],
        fun k => by simp [assocLookup, mergedAtProp]⟩
    | cons e rest =>
      exfalso
      obtain ⟨k', v'⟩ := e
      simp at hsz
  | succ n ih =>
    intro src dst hsz hwf hcompat
    cases src with
    | nil =>
      exact ⟨dst, by rw [update_dict_from_other],
        fun k => by simp [assocLookup, mergedAtProp]⟩
    | cons e rest =>
      obtain ⟨k', v'⟩ := e
      rw [srcWF] at hwf
      simp only [Bool.and_eq_true, decide_eq_true_eq] at hwf
      obtain ⟨⟨hk'notin, hwfv⟩, hwfr⟩ := hwf
      rw [compat] at hcompat
      simp only [Bool.and_eq_true] at hcompat
      obtain ⟨hAt, hcr⟩ := hcompat
      have hszrest : sizeOf rest ≤ n := by simp at hsz; omega
      obtain ⟨d1, hd1, hAtd1, hunch⟩ : ∃ d1, updateOne dst k' v' = some d1 ∧
          mergedAtProp dst d1 k' (some v') ∧
          ∀ k, k' ≠ k → assocLookup d1 k = assocLookup dst k := by
        cases v' with
        | vnull =>
          exact ⟨dst, by rw [updateOne], by simp [mergedAtProp], fun k _ => rfl⟩
        | vbool b =>
          refine ⟨assocSet dst k' (.vbool b), by rw [updateOne], ?_, ?_⟩
          · simp [mergedAtProp, assocLookup_assocSet]
          · intro k hk; rw [assocLookup_assocSet, if_neg hk]
        | vint m =>
          refine ⟨assocSet dst k' (.vint m), by rw [updateOne], ?_, ?_⟩
          · simp [mergedAtProp, assocLookup_assocSet]
          · intro k hk; rw [assocLookup_assocSet, if_neg hk]
        | vstr s =>
          refine ⟨assocSet dst k' (.vstr s), by rw [updateOne], ?_, ?_⟩
          · simp [mergedAtProp, assocLookup_assocSet]
          · intro k hk; rw [assocLookup_assocSet, if_neg hk]
        | vlist xs =>
          cases hdst : assocLookup dst k' with
          | none =>
            refine ⟨assocSet dst k' (.vlist ([] ++ xs)),
              by rw [updateOne, hdst], ?_, ?_⟩
            · simp [mergedAtProp, assocLookup_assocSet, dstList, hdst]
            · intro k hk; rw [assocLookup_assocSet, if_neg hk]
          | some w =>
            cases w with
            | vlist ys =>
              refine ⟨assocSet dst k' (.vlist (ys ++ xs)),
                by rw [updateOne, hdst], ?_, ?_⟩
              · simp [mergedAtProp, assocLookup_assocSet, dstList, hdst]
              · intro k hk; rw [assocLookup_assocSet, if_neg hk]
            | vnull => rw [hdst] at hAt; simp [compatAt] at hAt
            | vbool b => rw [hdst] at hAt; simp [compatAt] at hAt
            | vint m => rw [hdst] at hAt; simp [compatAt] at hAt
            | vstr s => rw [hdst] at hAt; simp [compatAt] at hAt
            | vset t => rw [hdst] at hAt; simp [compatAt] at hAt
            | vdict d0 => rw [hdst] at hAt; simp [compatAt] at hAt
        | vset s =>
          cases hdst : assocLookup dst k' with
          | none =>
            refine ⟨assocSet dst k' (.vset (pyUnion [] s)),
              by rw [updateOne, hdst], ?_, ?_⟩
            · simp [mergedAtProp, assocLookup_assocSet, dstSet, hdst]
            · intro k hk; rw [assocLookup_assocSet, if_neg hk]
          | some w =>
            cases w with
            | vset t =>
              refine ⟨assocSet dst k' (.vset (pyUnion t s)),
                by rw [updateOne, hdst], ?_, ?_⟩
              · simp [mergedAtProp, assocLookup_assocSet, dstSet, hdst]
              · intro k hk; rw [assocLookup_assocSet, if_neg hk]
            | vnull => rw [hdst] at hAt; simp [compatAt] at hAt
            | vbool b => rw [hdst] at hAt; simp [compatAt] at hAt
            | vint m => rw [hdst] at hAt; simp [compatAt] at hAt
            | vstr s2 => rw [hdst] at hAt; simp [compatAt] at hAt
            | vlist ys => rw [hdst] at hAt; simp [compatAt] at hAt
            | vdict d0 => rw [hdst] at hAt; simp [compatAt] at hAt
        | vdict d =>
          have hszd : sizeOf d ≤ n := by simp at hsz; omega
          rw [srcWFVal] at hwfv
          cases hdst : assocLookup dst k' with
          | none =>
            rw [hdst] at hAt
            rw [compatAt] at hAt
            obtain ⟨sub, hsub, hsubP⟩ := ih d [] hszd hwfv hAt
            refine ⟨assocSet dst k' (.vdict sub),
              by simp only [updateOne, hdst, hsub], ?_, ?_⟩
            · refine ⟨sub, ?_, ?_⟩
              · have hdd : dstDict dst k' = [] := by rw [dstDict, hdst]
                rw [hdd]; exact hsub
              · rw [assocLookup_assocSet, if_pos rfl]
            · intro k hk; rw [assocLookup_assocSet, if_neg hk]
          | some w =>
            cases w with
            | vdict d0 =>
              rw [hdst] at hAt
              rw [compatAt] at hAt
              obtain ⟨sub, hsub, hsubP⟩ := ih d d0 hszd hwfv hAt
              refine ⟨assocSet dst k' (.vdict sub),
                by simp only [updateOne, hdst, hsub], ?_, ?_⟩
              · refine ⟨sub, ?_, ?_⟩
                · have hdd : dstDict dst k' = d0 := by rw [dstDict, hdst]
                  rw [hdd]; exact hsub
                · rw [assocLookup_assocSet, if_pos rfl]
              · intro k hk; rw [assocLookup_assocSet, if_neg hk]
            | vnull => rw [hdst] at hAt; simp [compatAt] at hAt
            | vbool b => rw [hdst] at hAt; simp [compatAt] at hAt
            | vint m => rw [hdst] at hAt; simp [compatAt] at hAt
            | vstr s => rw [hdst] at hAt; simp [compatAt] at hAt
            | vlist ys => rw [hdst] at hAt; simp [compatAt] at hAt
            | vset t => rw [hdst] at hAt; simp [compatAt] at hAt
      have hlookup_rest : ∀ k ∈ objKeys rest,
          assocLookup d1 k = assocLookup dst k := by
        intro k hk
        exact hunch k (fun hc => hk'notin (hc ▸ hk))
      have hcd1 : compat d1 rest = true := by
        rw [compat_congr rest dst d1 hlookup_rest]; exact hcr
      obtain ⟨out, hout, houtP⟩ := ih rest d1 hszrest hwfr hcd1
      refine ⟨out, ?_, ?_⟩
      · rw [update_dict_from_other, hd1]
        exact hout
      · intro k
        by_cases hkk : k' = k
        · subst hkk
          have hsrck : assocLookup ((k', v') :: rest) k' = some v' := by
            simp [assocLookup]
          rw [hsrck]
          have hrestk : assocLookup rest k' = none :=
            assocLookup_eq_none_of_not_mem hk'notin
          have h1 := houtP k'
          rw [hrestk] at h1
          exact mergedAtProp_out_congr h1 (some v') hAtd1
        · have hsrck : assocLookup ((k', v') :: rest) k =
              assocLookup rest k := by
            simp [assocLookup, hkk]
          rw [hsrck]
          exact (mergedAtProp_congr (hunch k hkk) _).mp (houtP k)

theorem pyUnion_mem (s : List String) :
    ∀ (t : List String) (x : String), x ∈ pyUnion t s ↔ x ∈ t ∨ x ∈ s := by
  induction s with
  | nil => intro t x; simp [pyUnion]
  | cons y s' ih =>
    intro t x
    have hstep : pyUnion t (y :: s') =
        pyUnion (if y ∈ t then t else t ++ [y]) s' := by
      rw [pyUnion, pyUnion, List.foldl_cons]
    rw [hstep, ih]
    by_cases hy : y ∈ t
    · simp only [if_pos hy, List.mem_cons]
      constructor
      · rintro (h | h)
        · exact Or.inl h
        · exact Or.inr (Or.inr h)
      · rintro (h | h | h)
        · exact Or.inl h
        · exact Or.inl (h ▸ hy)
        · exact Or.inr h
    · simp only [if_neg hy, List.mem_append, List.mem_singleton, List.mem_cons]
      tauto

/-- C2: under layer compatibility (each source collection meets a destination
collection of the same kind or none) and unique keys, the merge succeeds and
processes exactly the non-null source keys: list values extend the
destination list (created empty if missing), set values union into the
destination set, dict values merge recursively (into an empty dict if
missing), other values overwrite, and null-valued or absent source keys leave
the destination unchanged; `pyUnion` is the set union. -/
theorem update_dict_from_other_spec (dst src : Obj)
    (hwf : srcWF src = true) (hcompat : compat dst src = true) :
    (∃ out, update_dict_from_other dst src = some out ∧
      ∀ k, mergedAtProp dst out k (assocLookup src k)) ∧
    (∀ (t s : List String) (x : String), x ∈ pyUnion t s ↔ x ∈ t ∨ x ∈ s) :=
  ⟨update_dict_from_other_aux (sizeOf src) src dst le_rfl hwf hcompat,
   fun t s x => pyUnion_mem s t x⟩

/-- Witness for `update_dict_from_other_spec` at the spec's own example:
global `{"secret": {"ignored_paths": {"a"}}}` merged with local
`{"secret": {"ignored_paths": {"b"}}}`. -/
theorem update_dict_from_other_spec_witness :
    srcWF [("secret", Value.vdict [("ignored_paths", Value.vset ["b"])])] = true ∧
    compat [("secret", Value.vdict [("ignored_paths", Value.vset ["a"])])]
      [("secret", Value.vdict [("ignored_paths", Value.vset ["b"])])] = true ∧
    ((∃ out, update_dict_from_other
        [("secret", Value.vdict [("ignored_paths", Value.vset ["a"])])]
        [("secret", Value.vdict [("ignored_paths", Value.vset ["b"])])] =
          some out ∧
      ∀ k, mergedAtProp
        [("secret", Value.vdict [("ignored_paths", Value.vset ["a"])])] out k
        (assocLookup
          [("secret", Value.vdict [("ignored_paths", Value.vset ["b"])])] k)) ∧
    (∀ (t s : List String) (x : String), x ∈ pyUnion t s ↔ x ∈ t ∨ x ∈ s)) :=
  ⟨by decide, by decide,
   update_dict_from_other_spec
     [("secret", Value.vdict [("ignored_paths", Value.vset ["a"])])]
     [("secret", Value.vdict [("ignored_paths", Value.vset ["b"])])]
     (by decide) (by decide)⟩

theorem exceptIsOk_map (r : Except PyErr Obj) (f : Obj → Obj) :
    exceptIsOk (r.map f) = exceptIsOk r := by
  cases r <;> rfl

theorem exceptIsOk_true_iff (r : Except PyErr Obj) :
    exceptIsOk r = true ↔ ∃ out, r = Except.ok out := by
  cases r with
  | ok out => simp [exceptIsOk]
  | error e => simp [exceptIsOk]

theorem remove_common_isOk_aux : ∀ (n : Nat) (dct : Obj) (ref : Value),
    sizeOf dct ≤ n →
    exceptIsOk (remove_common_dict_items dct ref) = keysSub dct ref := by
  intro n
  induction n with
  | zero =>
    intro dct ref hsz
    cases dct with
    | nil => simp [remove_common_dict_items, keysSub, exceptIsOk]
    | cons e rest =>
      exfalso
      obtain ⟨k, v⟩ := e
      simp at hsz
  | succ n ih =>
    intro dct ref hsz
    cases dct with
    | nil => simp [remove_common_dict_items, keysSub, exceptIsOk]
    | cons e rest =>
      obtain ⟨key, value⟩ := e
      have hszrest : sizeOf rest ≤ n := by simp at hsz; omega
      rw [remove_common_dict_items, keysSub]
      cases hsub : pySubscript ref key with
      | error e => simp [exceptIsOk]
      | ok rv =>
        cases value with
        | vdict d =>
          have hszd : sizeOf d ≤ n := by simp at hsz; omega
          cases hrec : remove_common_dict_items d rv with
          | error e =>
            have h1 := ih d rv hszd
            rw [hrec] at h1
            simp only [exceptIsOk] at h1
            simp [hrec, exceptIsOk, ← h1]
          | ok d2 =>
            have h1 := ih d rv hszd
            rw [hrec] at h1
            simp only [exceptIsOk] at h1
            by_cases hemp : d2.isEmpty
            · simp [hrec, hemp, ih rest ref hszrest, ← h1]
            · simp [hrec, hemp, exceptIsOk_map, ih rest ref hszrest, ← h1]
        | vnull => by_cases hpe : pyEq Value.vnull rv <;>
            simp [hpe, exceptIsOk_map, ih rest ref hszrest]
        | vbool b => by_cases hpe : pyEq (Value.vbool b) rv <;>
            simp [hpe, exceptIsOk_map, ih rest ref hszrest]
        | vint m => by_cases hpe : pyEq (Value.vint m) rv <;>
            simp [hpe, exceptIsOk_map, ih rest ref hszrest]
        | vstr s => by_cases hpe : pyEq (Value.vstr s) rv <;>
            simp [hpe, exceptIsOk_map, ih rest ref hszrest]
        | vlist xs => by_cases hpe : pyEq (Value.vlist xs) rv <;>
            simp [hpe, exceptIsOk_map, ih rest ref hszrest]
        | vset t => by_cases hpe : pyEq (Value.vset t) rv <;>
            simp [hpe, exceptIsOk_map, ih rest ref hszrest]

theorem remove_common_keyError : ∀ (pre : Obj) (rs : Obj) (k : String)
    (v : Value) (post : Obj),
    keysSub pre (.vdict rs) = true → assocLookup rs k = none →
    remove_common_dict_items (pre ++ (k, v) :: post) (.vdict rs) =
      Except.error (.keyError k) := by
  intro pre
  induction pre with
  | nil =>
    intro rs k v post _ hmiss
    rw [List.nil_append, remove_common_dict_items]
    have hsub : pySubscript (.vdict rs) k = Except.error (.keyError k) := by
      rw [pySubscript, hmiss]
    rw [hsub]
  | cons e pre' ih =>
    intro rs k v post hks hmiss
    obtain ⟨k0, v0⟩ := e
    rw [keysSub] at hks
    simp only [Bool.and_eq_true] at hks
    obtain ⟨hhead, htail⟩ := hks
    cases hsub : pySubscript (.vdict rs) k0 with
    | error e0 => rw [hsub] at hhead; simp at hhead
    | ok rv0 =>
      rw [hsub] at hhead
      cases v0
      case vdict d0 =>
        have hd0 : keysSub d0 rv0 = true := hhead
        have hok : exceptIsOk (remove_common_dict_items d0 rv0) = true := by
          rw [remove_common_isOk_aux (sizeOf d0) d0 rv0 le_rfl]
          exact hd0
        obtain ⟨d2, hd2⟩ := (exceptIsOk_true_iff _).mp hok
        simp only [List.cons_append, remove_common_dict_items, hsub, hd2]
        split
        · exact ih rs k v post htail hmiss
        · rw [ih rs k v post htail hmiss]
          rfl
      all_goals
        simp only [List.cons_append, remove_common_dict_items, hsub]
        split
        · exact ih rs k v post htail hmiss
        · rw [ih rs k v post htail hmiss]
          rfl

/-- C10: `remove_common_dict_items` looks up `reference_dct[key]` for every
key of `dct`: it returns without raising exactly when every key of `dct` is,
recursively through nested dict values, present in the reference at the
corresponding level (`keysSub`); and whenever the iteration reaches a key
absent from the reference dict, the call raises `KeyError` for that key. -/
theorem remove_common_dict_items_spec :
    (∀ (dct : Obj) (ref : Value),
      exceptIsOk (remove_common_dict_items dct ref) = keysSub dct ref) ∧
    (∀ (pre : Obj) (rs : Obj) (k : String) (v : Value) (post : Obj),
      keysSub pre (.vdict rs) = true → assocLookup rs k = none →
      remove_common_dict_items (pre ++ (k, v) :: post) (.vdict rs) =
        Except.error (.keyError k)) :=
  ⟨fun dct ref => remove_common_isOk_aux (sizeOf dct) dct ref le_rfl,
   remove_common_keyError⟩

/-- Witness for `remove_common_dict_items_spec`: the first part at a
dict whose key is present in the reference, the second at a reference
missing the key `"a"` after one resolvable entry. -/
theorem remove_common_dict_items_spec_witness :
    (exceptIsOk (remove_common_dict_items [("x", Value.vint 1)]
        (.vdict [("x", Value.vint 2)])) =
      keysSub [("x", Value.vint 1)] (.vdict [("x", Value.vint 2)])) ∧
    (keysSub [("x", Value.vint 0)] (.vdict [("x", Value.vint 0)]) = true ∧
     assocLookup [("x", Value.vint 0)] "a" = none ∧
     remove_common_dict_items ([("x", Value.vint 0)] ++ ("a", Value.vnull) :: [])
        (.vdict [("x", Value.vint 0)]) = Except.error (.keyError "a")) :=
  ⟨remove_common_dict_items_spec.1 [("x", Value.vint 1)]
      (.vdict [("x", Value.vint 2)]),
   by simp [keysSub, pySubscript, assocLookup], rfl,
   remove_common_dict_items_spec.2 [("x", Value.vint 0)] [("x", Value.vint 0)]
      "a" Value.vnull [] (by simp [keysSub, pySubscript, assocLookup]) rfl⟩

theorem removeExpiredLoop_spec (now : Int) :
    ∀ (n : Nat) (lst expired : List ConfigIgnoredElement), n ≤ lst.length →
      removeExpiredLoop now lst expired n =
        ((lst.take n).filter (fun e => !isExpired now e) ++ lst.drop n,
         (lst.take n).filter (isExpired now) ++ expired) := by
  intro n
  induction n with
  | zero => intro lst expired _; simp [removeExpiredLoop]
  | succ n ih =>
    intro lst expired hn
    have hlt : n < lst.length := by omega
    have hget : lst[n]? = some lst[n] := List.getElem?_eq_getElem hlt
    have htake : lst.take (n + 1) = lst.take n ++ [lst[n]] := by
      rw [List.take_succ, hget]; rfl
    have hdropn : lst.drop n = lst[n] :: lst.drop (n + 1) :=
      List.drop_eq_getElem_cons hlt
    have hstep : removeExpiredLoop now lst expired (n + 1) =
        if isExpired now lst[n] then
          removeExpiredLoop now (lst.eraseIdx n) (lst[n] :: expired) n
        else removeExpiredLoop now lst expired n := by
      rw [removeExpiredLoop, hget]
    by_cases hexp : isExpired now lst[n]
    · have herase : lst.eraseIdx n = lst.take n ++ lst.drop (n + 1) :=
        List.eraseIdx_eq_take_drop_succ lst n
      have hlen : n ≤ (lst.eraseIdx n).length := by
        rw [herase]
        simp only [List.length_append, List.length_take, List.length_drop]
        omega
      have htk : (lst.take n ++ lst.drop (n + 1)).take n = lst.take n := by
        rw [List.take_append_of_le_length, List.take_take]
        · simp
        · simp only [List.length_take]; omega
      have hdr : (lst.take n ++ lst.drop (n + 1)).drop n = lst.drop (n + 1) := by
        rw [List.drop_append_of_le_length, List.drop_eq_nil_of_le, List.nil_append]
        · simp only [List.length_take]; omega
        · simp only [List.length_take]; omega
      have hkeep : List.filter (fun e => !isExpired now e) [lst[n]] = [] := by
        simp [hexp]
      have hexpf : List.filter (isExpired now) [lst[n]] = [lst[n]] := by
        simp [hexp]
      rw [hstep, if_pos hexp, ih _ _ hlen, herase, htk, hdr, htake,
        List.filter_append, List.filter_append, hkeep, hexpf, List.append_nil,
        List.append_assoc]
      rfl
    · have hkeep : List.filter (fun e => !isExpired now e) [lst[n]] = [lst[n]] := by
        simp [hexp]
      have hexpf : List.filter (isExpired now) [lst[n]] = [] := by
        simp [hexp]
      rw [hstep, if_neg hexp, ih _ _ (Nat.le_of_lt hlt), hdropn, htake,
        List.filter_append, List.filter_append, hkeep, hexpf, List.append_nil,
        List.append_assoc]
      rfl

/-- C3: for every list of ignore elements, the expiry sweep keeps exactly the
non-expired elements in the active list in their original relative order,
returns exactly the expired elements in original relative order, the two
groups' lengths sum to the input length (k expired, n-k active), and
membership in a group coincides with the expiry test, so no element is in
both groups and every element is in one. -/
theorem remove_expired_elements_spec (now : Int) (lst : List ConfigIgnoredElement) :
    remove_expired_elements now lst =
      (lst.filter (fun e => !isExpired now e), lst.filter (isExpired now)) ∧
    (lst.filter (fun e => !isExpired now e)).length +
      (lst.filter (isExpired now)).length = lst.length ∧
    (∀ e ∈ (remove_expired_elements now lst).1, isExpired now e = false) ∧
    (∀ e ∈ (remove_expired_elements now lst).2, isExpired now e = true) := by
  have hmain : remove_expired_elements now lst =
      (lst.filter (fun e => !isExpired now e), lst.filter (isExpired now)) := by
    rw [remove_expired_elements, removeExpiredLoop_spec now lst.length lst [] le_rfl]
    simp
  refine ⟨hmain, ?_, ?_, ?_⟩
  · have := lst.length_eq_length_filter_add (isExpired now)
    omega
  · intro e he
    rw [hmain] at he
    have := List.of_mem_filter he
    simpa using this
  · intro e he
    rw [hmain] at he
    exact List.of_mem_filter he

/-- C9: `add_ignored_match` preserves the at-most-one-entry-per-`match`
invariant; on a duplicate `match` it appends nothing and only backfills an
empty `name` on the existing entry (a non-empty name is retained even when
the new entry has a name); on a fresh `match` it appends the new entry. -/
theorem add_ignored_match_spec (l : List IgnoredMatch) (s : IgnoredMatch)
    (hnodup : (l.map IgnoredMatch.match_).Nodup) :
    ((add_ignored_match l s).map IgnoredMatch.match_).Nodup ∧
    (s.match_ ∉ l.map IgnoredMatch.match_ → add_ignored_match l s = l ++ [s]) ∧
    (s.match_ ∈ l.map IgnoredMatch.match_ →
      add_ignored_match l s =
        l.map (fun m =>
          if m.match_ = s.match_ then
            (if m.name = "" then { m with name := s.name } else m)
          else m)) := by
  induction l with
  | nil =>
    refine ⟨by simp [add_ignored_match], fun _ => rfl, fun h => absurd h (by simp)⟩
  | cons m rest ih =>
    have hnotin : m.match_ ∉ rest.map IgnoredMatch.match_ := by
      simpa using hnodup.not_mem
    have hrest : (rest.map IgnoredMatch.match_).Nodup := hnodup.of_cons
    obtain ⟨ih1, ih2, ih3⟩ := ih hrest
    by_cases heq : m.match_ = s.match_
    · have hstep : add_ignored_match (m :: rest) s =
          (if m.name = "" then { m with name := s.name } else m) :: rest := by
        rw [add_ignored_match, if_pos heq]
      refine ⟨?_, ?_, ?_⟩
      · rw [hstep]
        by_cases hname : m.name = "" <;> simp [hname] <;>
          simpa [List.nodup_cons] using hnodup
      · intro habs
        exact absurd (by simp [← heq]) habs
      · intro _
        rw [hstep]
        have hrw : rest.map (fun m' =>
            if m'.match_ = s.match_ then
              (if m'.name = "" then { m' with name := s.name } else m')
            else m') = rest := by
          conv_rhs => rw [← List.map_id rest]
          apply List.map_congr_left
          intro x hx
          have : x.match_ ≠ s.match_ := by
            intro hc
            exact hnotin (by rw [heq, ← hc]; exact List.mem_map_of_mem _ hx)
          simp [this]
        simp [heq, hrw]
    · have hstep : add_ignored_match (m :: rest) s =
          m :: add_ignored_match rest s := by
        rw [add_ignored_match, if_neg heq]
      refine ⟨?_, ?_, ?_⟩
      · rw [hstep]
        simp only [List.map_cons, List.nodup_cons]
        refine ⟨?_, ih1⟩
        intro hmem
        rcases List.mem_map.mp hmem with ⟨x, hx, hxm⟩
        have hfm : ∀ y : IgnoredMatch,
            (if y.match_ = s.match_ then
              (if y.name = "" then { y with name := s.name } else y)
            else y).match_ = y.match_ := by
          intro y
          by_cases h1 : y.match_ = s.match_ <;> by_cases h2 : y.name = "" <;>
            simp [h1, h2]
        by_cases hin : s.match_ ∈ rest.map IgnoredMatch.match_
        · rw [ih3 hin] at hx
          rcases List.mem_map.mp hx with ⟨y, hy, hyx⟩
          apply hnotin
          rw [← hxm, ← hyx, hfm y]
          exact List.mem_map_of_mem _ hy
        · rw [ih2 hin] at hx
          rcases List.mem_append.mp hx with hx' | hx'
          · apply hnotin
            rw [← hxm]
            exact List.mem_map_of_mem _ hx'
          · simp only [List.mem_singleton] at hx'
            exact heq (by rw [← hxm, hx'])
      · intro hne
        have hne' : s.match_ ∉ rest.map IgnoredMatch.match_ := by
          intro h; exact hne (List.mem_cons_of_mem _ h)
        rw [hstep, ih2 hne']
        rfl
      · intro hmem
        have hmem' : s.match_ ∈ rest.map IgnoredMatch.match_ := by
          rcases List.mem_cons.mp hmem with h | h
          · exact absurd h.symm (by simpa using heq)
          · exact h
        rw [hstep, ih3 hmem']
        simp [heq]

/-- Witness for `add_ignored_match_spec` at a concrete input: one existing
entry with an empty name, a duplicate `match` arriving with a name. -/
theorem add_ignored_match_spec_witness :
    (([⟨"", "aaa"⟩] : List IgnoredMatch).map IgnoredMatch.match_).Nodup ∧
    ((((add_ignored_match [⟨"", "aaa"⟩] ⟨"n1", "aaa"⟩).map
        IgnoredMatch.match_).Nodup) ∧
      (("aaa" : String) ∉ ([⟨"", "aaa"⟩] : List IgnoredMatch).map
          IgnoredMatch.match_ →
        add_ignored_match [⟨"", "aaa"⟩] ⟨"n1", "aaa"⟩ =
          [⟨"", "aaa"⟩] ++ [⟨"n1", "aaa"⟩]) ∧
      (("aaa" : String) ∈ ([⟨"", "aaa"⟩] : List IgnoredMatch).map
          IgnoredMatch.match_ →
        add_ignored_match [⟨"", "aaa"⟩] ⟨"n1", "aaa"⟩ =
          ([⟨"", "aaa"⟩] : List IgnoredMatch).map (fun m =>
            if m.match_ = "aaa" then
              (if m.name = "" then { m with name := "n1" } else m)
            else m))) :=
  ⟨by decide, add_ignored_match_spec [⟨"", "aaa"⟩] ⟨"n1", "aaa"⟩ (by decide)⟩

theorem assocLookup_assocRemove_ne {l : Obj} {k k' : String} (h : k ≠ k') :
    assocLookup (assocRemove l k) k' = assocLookup l k' := by
  induction l with
  | nil => rfl
  | cons e rest ih =>
    obtain ⟨k0, v0⟩ := e
    by_cases h0 : k0 = k
    · subst h0
      simp [assocRemove, assocLookup, h]
    · by_cases h1 : k0 = k'
      · simp [assocRemove, assocLookup, h0, h1, Ne.symm h]
      · simp [assocRemove, assocLookup, h0, h1, ih]

theorem assocRemove_of_lookup_none {l : Obj} {k : String}
    (h : assocLookup l k = none) : assocRemove l k = l := by
  induction l with
  | nil => rfl
  | cons e rest ih =>
    obtain ⟨k0, v0⟩ := e
    rw [assocLookup] at h
    by_cases h0 : k0 = k
    · rw [if_pos h0] at h; exact absurd h (by simp)
    · rw [if_neg h0] at h
      rw [assocRemove, if_neg h0, ih h]

theorem copy_if_set_lookup_ne (data dct : Obj) (dk sk k : String)
    (h : dk ≠ k) :
    assocLookup (copy_if_set data dct dk sk) k = assocLookup dct k := by
  rw [copy_if_set]
  cases assocLookup data sk with
  | none => rfl
  | some w => rw [assocLookup_assocSet, if_neg h]

theorem copy_if_set_lookup_self (data dct : Obj) (dk sk : String) (w : Value)
    (h : assocLookup data sk = some w) :
    assocLookup (copy_if_set data dct dk sk) dk = some w := by
  rw [copy_if_set, h, assocLookup_assocSet, if_pos rfl]

theorem v1Assemble_lookup_instance (data2 secret0 : Obj) (w : Value)
    (h : assocLookup data2 "instance" = some w) :
    assocLookup (v1Assemble data2 secret0) "instance" = some w := by
  rw [v1Assemble]
  rw [copy_if_set_lookup_ne _ _ _ _ _ (by decide),
    copy_if_set_lookup_ne _ _ _ _ _ (by decide),
    copy_if_set_lookup_ne _ _ _ _ _ (by decide),
    copy_if_set_lookup_ne _ _ _ _ _ (by decide)]
  exact copy_if_set_lookup_self _ _ _ _ _ h

theorem charIn_replaceChar (old new : Char) (s : String)
    (h : charIn old s = true) : charIn new (replaceChar old new s) = true := by
  rw [charIn, replaceChar]
  rw [charIn] at h
  apply List.elem_eq_true_of_mem
  exact List.mem_map.mpr ⟨old, List.mem_of_elem_eq_true h, by simp⟩

theorem replaceKeysLoop_lookup_none (old new : Char) (target : String)
    (hrekey : ∀ s, charIn old s = true → replaceChar old new s ≠ target) :
    ∀ (snap : List (String × Value)) (d : Obj),
      assocLookup d target = none →
      assocLookup (replaceKeysLoop old new snap d) target = none := by
  intro snap
  induction snap with
  | nil => intro d h; exact h
  | cons e snap' ih =>
    intro d h
    obtain ⟨key, value⟩ := e
    rw [replaceKeysLoop]
    apply ih
    have h2 : assocLookup
        (if (assocLookup d key).isSome then
          assocSet d key (replace_in_keys old new value) else d) target = none := by
      by_cases hk : (assocLookup d key).isSome
      · have hkt : key ≠ target := by
          intro hc
          subst hc
          rw [h] at hk
          exact absurd hk (by simp)
        rw [if_pos hk, assocLookup_assocSet, if_neg hkt]
        exact h
      · rw [if_neg hk]; exact h
    by_cases hc : charIn old key
    · rw [if_pos hc]
      split
      · rename_i cur hcur
        have hkt : key ≠ target := by
          intro hceq
          subst hceq
          rw [h2] at hcur
          exact absurd hcur (by simp)
        rw [assocLookup_assocSet, if_neg (hrekey key hc),
          assocLookup_assocRemove_ne hkt]
        exact h2
      · exact h2
    · rw [if_neg hc]
      exact h2

theorem replaceKeysLoop_lookup_keep (old new : Char) (target : String)
    (w : Value) (htarget : charIn old target = false)
    (hw : replace_in_keys old new w = w)
    (hrekey : ∀ s, charIn old s = true → replaceChar old new s ≠ target) :
    ∀ (snap : List (String × Value)) (d : Obj),
      (∀ kv ∈ snap, kv.1 = target → kv.2 = w) →
      assocLookup d target = some w →
      assocLookup (replaceKeysLoop old new snap d) target = some w := by
  intro snap
  induction snap with
  | nil => intro d _ h; exact h
  | cons e snap' ih =>
    intro d hsnap h
    obtain ⟨key, value⟩ := e
    rw [replaceKeysLoop]
    apply ih _ (fun kv hkv => hsnap kv (List.mem_cons_of_mem _ hkv))
    by_cases hkt : key = target
    · subst hkt
      have hval : value = w := hsnap (key, value) (List.mem_cons_self _ _) rfl
      subst hval
      have hk : (assocLookup d key).isSome := by rw [h]; rfl
      rw [if_pos hk, hw]
      rw [if_neg (by rw [htarget]; simp)]
      rw [assocLookup_assocSet, if_pos rfl]
    · have h2 : assocLookup
          (if (assocLookup d key).isSome then
            assocSet d key (replace_in_keys old new value) else d) target =
          some w := by
        by_cases hk : (assocLookup d key).isSome
        · rw [if_pos hk, assocLookup_assocSet, if_neg hkt]
          exact h
        · rw [if_neg hk]; exact h
      by_cases hc : charIn old key
      · rw [if_pos hc]
        split
        · rename_i cur hcur
          rw [assocLookup_assocSet, if_neg (hrekey key hc),
            assocLookup_assocRemove_ne hkt]
          exact h2
        · exact h2
      · rw [if_neg hc]
        exact h2

theorem assocLookup_unique {l : Obj} {k : String} {v : Value}
    (hnodup : (objKeys l).Nodup) (h : assocLookup l k = some v) :
    ∀ kv ∈ l, kv.1 = k → kv.2 = v := by
  induction l with
  | nil => intro kv hkv; exact absurd hkv (by simp)
  | cons e rest ih =>
    intro kv hkv hk
    obtain ⟨k0, v0⟩ := e
    rw [assocLookup] at h
    simp only [objKeys, List.map_cons, List.nodup_cons] at hnodup
    rcases List.mem_cons.mp hkv with hkv' | hkv'
    · subst hkv'
      simp only at hk
      rw [if_pos hk] at h
      injection h
    · by_cases h0 : k0 = k
      · exfalso
        apply hnodup.1
        rw [h0, ← hk]
        exact List.mem_map_of_mem _ hkv'
      · rw [if_neg h0] at h
        exact ih (by simpa [objKeys] using hnodup.2) h kv hkv' hk

theorem no_rekey_to_version :
    ∀ s, charIn '_' s = true → replaceChar '_' '-' s ≠ "version" := by
  intro s h hc
  have h2 := charIn_replaceChar '_' '-' s h
  rw [hc] at h2
  exact absurd h2 (by decide)

/-- C1 (divergence at the claimed input): in the dict transform the
bare-string rewrite never fires — `matches_ignore_to_dict` reads the
underscore key `matches_ignore` while `load_v1_dict` data is hyphenated — so
the raw bare string reaches the external model's `from_dict`, which requires
a mapping, and migration of the claim's example fails instead of producing
the claimed v2 mapping. -/
theorem load_v1_dict_bare_matches_bug :
    matches_ignore_to_dict
      [("api-url", Value.vstr "https://api.example.com"),
       ("show-secrets", Value.vbool true),
       ("matches-ignore", Value.vlist [Value.vstr "deadbeef"])] =
      Except.ok
      [("api-url", Value.vstr "https://api.example.com"),
       ("show-secrets", Value.vbool true),
       ("matches-ignore", Value.vlist [Value.vstr "deadbeef"])] ∧
    load_v1_dict
      [("api-url", Value.vstr "https://api.example.com"),
       ("show-secrets", Value.vbool true),
       ("matches-ignore", Value.vlist [Value.vstr "deadbeef"])] =
      Except.error PyErr.validationError :=
  ⟨rfl, rfl⟩

/-- C4 counterexample: an existing file holding the empty mapping is treated
as version 2 — `load_yaml_dict(...) or {"version": 2}` replaces the falsy
empty dict — so no deprecation message is appended and the v1 transform is
not applied, contrary to the claim's "including the empty mapping". -/
theorem loadConfigDict_empty_mapping_counterexample :
    loadConfigDict "path" (some []) = Except.ok ([], []) := by
  have h1 : charIn '_' "version" = false := by decide
  simp [loadConfigDict, replaceObjKeys, replaceKeysLoop, replace_in_keys, h1,
    assocLookup, assocSet, assocRemove, pyEqInt, pyEq, fix_ignore_known_secrets,
    isVNull, Except.map]

/-- C4 (amended): for every existing configuration file whose top-level
mapping is non-empty and lacks a `version` key, loading treats the file as
version 1 — the v1-to-v2 transform is applied to the hyphenated mapping and
the deprecation message telling the user to run the migration command is
appended; the empty mapping is instead treated as the current version. -/
theorem loadConfigDict_no_version_v1 (path : String) (m : Obj)
    (hne : m ≠ []) (hv : assocLookup m "version" = none) :
    loadConfigDict path (some m) =
      match load_v1_dict (replaceObjKeys '_' '-' m) with
      | Except.ok (d, msgs) => Except.ok (d, deprecationMsg path :: msgs)
      | Except.error e => Except.error e := by
  have hemp : m.isEmpty = false := by
    cases m with
    | nil => exact absurd rfl hne
    | cons a l => rfl
  have hlook : assocLookup (replaceObjKeys '_' '-' m) "version" = none :=
    replaceKeysLoop_lookup_none '_' '-' "version" no_rekey_to_version m m hv
  rw [loadConfigDict]
  simp only [hemp, Bool.false_eq_true, if_false, hlook, Option.getD_some,
    Option.getD_none, assocRemove_of_lookup_none hlook]
  have hq2 : pyEqInt (Value.vint 1) 2 = false := by simp [pyEqInt, pyEq]
  have hq1 : pyEqInt (Value.vint 1) 1 = true := by simp [pyEqInt, pyEq]
  rw [hq2, hq1]
  simp

/-- Witness for `loadConfigDict_no_version_v1` at a concrete non-empty
mapping without a `version` key. -/
theorem loadConfigDict_no_version_v1_witness :
    ([(("verbose" : String), Value.vbool true)] ≠ ([] : Obj)) ∧
    assocLookup [("verbose", Value.vbool true)] "version" = none ∧
    (loadConfigDict "p" (some [("verbose", Value.vbool true)]) =
      match load_v1_dict (replaceObjKeys '_' '-'
          [("verbose", Value.vbool true)]) with
      | Except.ok (d, msgs) => Except.ok (d, deprecationMsg "p" :: msgs)
      | Except.error e => Except.error e) :=
  ⟨by simp, rfl,
   loadConfigDict_no_version_v1 "p" [("verbose", Value.vbool true)]
     (by simp) rfl⟩

/-- C5 counterexample: loading `{"version": 3}` fails with an
`UnexpectedError`, ggshield's unexpected-error class, not with its
`ParseError` class as the claim's "fatal parse error" states. -/
theorem loadConfigDict_unknown_version_counterexample :
    loadConfigDict "p" (some [("version", Value.vint 3)]) =
      Except.error (.unexpectedError
        "Don't know how to load config version 3") ∧
    isParseErrorResult
      (loadConfigDict "p" (some [("version", Value.vint 3)])) = false := by
  have h1 : charIn '_' "version" = false := by decide
  have hmain : loadConfigDict "p" (some [("version", Value.vint 3)]) =
      Except.error (.unexpectedError
        "Don't know how to load config version 3") := by
    simp [loadConfigDict, replaceObjKeys, replaceKeysLoop, replace_in_keys, h1,
      assocLookup, assocSet, assocRemove, pyEqInt, pyEq, pyStr,
      fix_ignore_known_secrets, isVNull]
    rfl
  exact ⟨hmain, by rw [hmain]; rfl⟩

/-- C5 (amended): loading a configuration mapping whose `version` key is an
integer other than 1 and 2 fails with a fatal `UnexpectedError` whose
message reports the unrecognized version; no configuration object is
produced. -/
theorem loadConfigDict_unknown_version_spec (path : String) (m : Obj) (n : Int)
    (hnodup : (objKeys m).Nodup) (h1 : n ≠ 1) (h2 : n ≠ 2)
    (hv : assocLookup m "version" = some (.vint n)) :
    loadConfigDict path (some m) =
      Except.error (.unexpectedError
        ("Don't know how to load config version " ++ toString n)) ∧
    ∀ res, loadConfigDict path (some m) ≠ Except.ok res := by
  have hne : m ≠ [] := by
    intro hc
    rw [hc] at hv
    exact absurd hv (by simp [assocLookup])
  have hemp : m.isEmpty = false := by
    cases m with
    | nil => exact absurd rfl hne
    | cons a l => rfl
  have hkeep : assocLookup (replaceObjKeys '_' '-' m) "version" =
      some (.vint n) :=
    replaceKeysLoop_lookup_keep '_' '-' "version" (.vint n) (by decide)
      (by rw [replace_in_keys.eq_def]) no_rekey_to_version m m
      (assocLookup_unique hnodup hv) hv
  have hmain : loadConfigDict path (some m) =
      Except.error (.unexpectedError
        ("Don't know how to load config version " ++ toString n)) := by
    rw [loadConfigDict]
    simp only [hemp, Bool.false_eq_true, if_false, hkeep, Option.getD_some]
    have hq2 : pyEqInt (Value.vint n) 2 = false := by simp [pyEqInt, pyEq, h2]
    have hq1 : pyEqInt (Value.vint n) 1 = false := by simp [pyEqInt, pyEq, h1]
    rw [hq2, hq1]
    simp [pyStr]
  exact ⟨hmain, fun res hres => by rw [hmain] at hres; exact absurd hres (by simp)⟩

/-- Witness for `loadConfigDict_unknown_version_spec` at `{"version": 5}`. -/
theorem loadConfigDict_unknown_version_spec_witness :
    (objKeys [("version", Value.vint 5)]).Nodup ∧ (5 : Int) ≠ 1 ∧ (5 : Int) ≠ 2 ∧
    assocLookup [("version", Value.vint 5)] "version" = some (.vint 5) ∧
    (loadConfigDict "p" (some [("version", Value.vint 5)]) =
      Except.error (.unexpectedError
        ("Don't know how to load config version " ++ toString (5 : Int))) ∧
    ∀ res, loadConfigDict "p" (some [("version", Value.vint 5)]) ≠
      Except.ok res) :=
  ⟨by decide, by decide, by decide, rfl,
   loadConfigDict_unknown_version_spec "p" [("version", Value.vint 5)] 5
     (by decide) (by decide) (by decide) rfl⟩

/-- C6 counterexample: migrating a v1 mapping that has both `api-url` and
`instance` keeps the explicit `instance` and emits no message at all — the
claimed "warning that the rename was skipped" does not exist; the legacy key
is dropped silently. -/
theorem load_v1_dict_rename_skip_counterexample :
    load_v1_dict
      [("api-url", Value.vstr "https://api.example.com"),
       ("instance", Value.vstr "https://gg.example.com")] =
      Except.ok ([("secret", Value.vdict []),
        ("instance", Value.vstr "https://gg.example.com")], []) :=
  rfl

/-- C6 (amended): when both `api-url` and `instance` are present, migration
keeps the existing `instance` value unchanged and appends no message about
the skipped rename (the legacy key is silently dropped); when `api-url` is
present and `instance` absent, the key is renamed to `instance` with its
value converted by the URL-to-dashboard-URL conversion. -/
theorem load_v1_dict_api_url_spec :
    (∀ (data : Obj) (u v : Value),
      assocLookup data "api-url" = some u →
      assocLookup data "instance" = some v →
      assocLookup data "matches_ignore" = none →
      assocLookup data "matches-ignore" = none →
      assocLookup data "all-policies" = none →
      assocLookup data "ignore-default-excludes" = none →
      ∃ out, load_v1_dict data = Except.ok (out, []) ∧
        assocLookup out "instance" = some v) ∧
    (∀ (data : Obj) (u : String),
      assocLookup data "api-url" = some (.vstr u) →
      assocLookup data "instance" = none →
      assocLookup data "matches_ignore" = none →
      assocLookup data "matches-ignore" = none →
      ∃ out msgs, load_v1_dict data = Except.ok (out, msgs) ∧
        assocLookup out "instance" =
          some (.vstr (api_to_dashboard_url u))) := by
  constructor
  · intro data u v hau hin hmu hmh hap hide
    have hd_inst : assocLookup (assocRemove data "api-url") "instance" =
        some v := by
      rw [assocLookup_assocRemove_ne (by decide), hin]
    have h1 : v1ApiUrlStep data = Except.ok (assocRemove data "api-url") := by
      simp [v1ApiUrlStep, hau, hd_inst]
    have hd_mu : assocLookup (assocRemove data "api-url") "matches_ignore" =
        none := by
      rw [assocLookup_assocRemove_ne (by decide), hmu]
    have h2 : matches_ignore_to_dict (assocRemove data "api-url") =
        Except.ok (assocRemove data "api-url") := by
      simp [matches_ignore_to_dict, hd_mu]
    have hd_mh : assocLookup (assocRemove data "api-url") "matches-ignore" =
        none := by
      rw [assocLookup_assocRemove_ne (by decide), hmh]
    have h3 : v1SecretMatches (assocRemove data "api-url") = Except.ok [] := by
      simp [v1SecretMatches, hd_mh]
    have h4 : v1Messages (assocRemove data "api-url") = [] := by
      have hap' : assocLookup (assocRemove data "api-url") "all-policies" =
          none := by
        rw [assocLookup_assocRemove_ne (by decide), hap]
      have hide' : assocLookup (assocRemove data "api-url")
          "ignore-default-excludes" = none := by
        rw [assocLookup_assocRemove_ne (by decide), hide]
      simp [v1Messages, hap', hide']
    refine ⟨v1Assemble (assocRemove data "api-url") [], ?_,
      v1Assemble_lookup_instance _ _ v hd_inst⟩
    rw [load_v1_dict, h1]
    simp [Except.bind, h2, h3, h4, Except.map]
  · intro data u hau hin hmu hmh
    have hd_inst : assocLookup (assocRemove data "api-url") "instance" =
        none := by
      rw [assocLookup_assocRemove_ne (by decide), hin]
    have h1 : v1ApiUrlStep data = Except.ok
        (assocSet (assocRemove data "api-url") "instance"
          (.vstr (api_to_dashboard_url u))) := by
      simp [v1ApiUrlStep, hau, hd_inst]
    have hd1_mu : assocLookup
        (assocSet (assocRemove data "api-url") "instance"
          (.vstr (api_to_dashboard_url u))) "matches_ignore" = none := by
      rw [assocLookup_assocSet, if_neg (by decide),
        assocLookup_assocRemove_ne (by decide), hmu]
    have h2 : matches_ignore_to_dict
        (assocSet (assocRemove data "api-url") "instance"
          (.vstr (api_to_dashboard_url u))) =
        Except.ok (assocSet (assocRemove data "api-url") "instance"
          (.vstr (api_to_dashboard_url u))) := by
      simp [matches_ignore_to_dict, hd1_mu]
    have hd1_mh : assocLookup
        (assocSet (assocRemove data "api-url") "instance"
          (.vstr (api_to_dashboard_url u))) "matches-ignore" = none := by
      rw [assocLookup_assocSet, if_neg (by decide),
        assocLookup_assocRemove_ne (by decide), hmh]
    have h3 : v1SecretMatches
        (assocSet (assocRemove data "api-url") "instance"
          (.vstr (api_to_dashboard_url u))) = Except.ok [] := by
      simp [v1SecretMatches, hd1_mh]
    have hd1_inst : assocLookup
        (assocSet (assocRemove data "api-url") "instance"
          (.vstr (api_to_dashboard_url u))) "instance" =
        some (.vstr (api_to_dashboard_url u)) := by
      rw [assocLookup_assocSet, if_pos rfl]
    refine ⟨v1Assemble
        (assocSet (assocRemove data "api-url") "instance"
          (.vstr (api_to_dashboard_url u))) [],
      v1Messages (assocSet (assocRemove data "api-url") "instance"
          (.vstr (api_to_dashboard_url u))), ?_,
      v1Assemble_lookup_instance _ _ _ hd1_inst⟩
    rw [load_v1_dict, h1]
    simp [Except.bind, h2, h3, Except.map]

/-- Witness for `load_v1_dict_api_url_spec`: the skip case with both keys
present, and the rename case with only `api-url`. -/
theorem load_v1_dict_api_url_spec_witness :
    (∃ out, load_v1_dict
        [("api-url", Value.vstr "https://api.example.com"),
         ("instance", Value.vstr "https://gg.example.com")] =
        Except.ok (out, []) ∧
      assocLookup out "instance" =
        some (Value.vstr "https://gg.example.com")) ∧
    (∃ out msgs, load_v1_dict
        [("api-url", Value.vstr "https://api.example.com")] =
        Except.ok (out, msgs) ∧
      assocLookup out "instance" =
        some (Value.vstr (api_to_dashboard_url "https://api.example.com"))) :=
  ⟨load_v1_dict_api_url_spec.1
      [("api-url", Value.vstr "https://api.example.com"),
       ("instance", Value.vstr "https://gg.example.com")]
      (Value.vstr "https://api.example.com")
      (Value.vstr "https://gg.example.com") rfl rfl rfl rfl rfl rfl,
   load_v1_dict_api_url_spec.2
      [("api-url", Value.vstr "https://api.example.com")]
      "https://api.example.com" rfl rfl rfl rfl⟩

/-- C7 counterexample: in a process whose local offset is +120 minutes,
parsing a bare calendar date yields 120 minutes before that date's midnight
UTC, not midnight UTC — `astimezone` interprets the naive strptime result in
the local timezone. -/
theorem load_until_midnight_counterexample :
    load_until 120 (RawUntil.rdate 0) ≠
      some { wall := 0, tzOffset := some 0 } := by
  decide

/-- C7 (amended): a bare `YYYY-MM-DD` until value parses successfully to
that date's local midnight converted to UTC (`midnight - localOffset` at
offset UTC), which equals midnight UTC exactly when the process-local offset
is zero; and every loaded non-null `until` is normalized to UTC. -/
theorem load_until_spec (off m : Int) :
    load_until off (.rdate m) = some { wall := m - off, tzOffset := some 0 } ∧
    (load_until off (.rdate m) = some { wall := m, tzOffset := some 0 } ↔
      off = 0) ∧
    (∀ raw d, load_until off raw = some d → d.tzOffset = some 0) := by
  refine ⟨rfl, ?_, ?_⟩
  · constructor
    · intro h
      rw [load_until] at h
      simp only [parse_date, astimezone_utc, Option.some_inj] at h
      have := congrArg PyDatetime.wall h
      simp only at this
      omega
    · intro h
      subst h
      simp [load_until, parse_date, astimezone_utc]
  · intro raw d h
    cases raw with
    | rnone => exact absurd h (by simp [load_until, parse_date])
    | rdate m' =>
      rw [load_until] at h
      simp only [parse_date, astimezone_utc, Option.some_inj] at h
      rw [← h]
    | rdatetime dt =>
      rw [load_until] at h
      cases hdt : dt.tzOffset with
      | none =>
        simp only [parse_date, astimezone_utc, hdt, Option.some_inj] at h
        rw [← h]
      | some o =>
        simp only [parse_date, astimezone_utc, hdt, Option.some_inj] at h
        rw [← h]

/-- Witness for `load_until_spec` at offset +120 and epoch-midnight date. -/
theorem load_until_spec_witness :
    load_until 120 (.rdate 0) =
      some { wall := (0 : Int) - 120, tzOffset := some 0 } ∧
    (load_until 120 (.rdate 0) =
      some { wall := (0 : Int), tzOffset := some 0 } ↔ (120 : Int) = 0) ∧
    (∀ raw d, load_until 120 raw = some d → d.tzOffset = some 0) :=
  load_until_spec 120 0

/-! ## Key-rewrite round trip (`replace_in_keys`) -/

theorem replaceChar_data (old new : Char) (l : List Char) :
    replaceChar old new ⟨l⟩ = ⟨l.map (fun c => if c = old then new else c)⟩ := rfl

theorem charIn_replaceChar_old (old new : Char) (hne : old ≠ new) (s : String) :
    charIn old (replaceChar old new s) = false := by
  obtain ⟨l⟩ := s
  rw [replaceChar_data, charIn]
  simp only [List.elem_eq_mem, decide_eq_false_iff_not]
  intro hmem
  rcases List.mem_map.mp hmem with ⟨c, _, hc⟩
  by_cases h : c = old
  · rw [if_pos h] at hc; exact hne hc.symm
  · rw [if_neg h] at hc; exact h hc

theorem charIn_replaceChar_other (old new c : Char) (s : String)
    (hc : c ≠ new) (h : charIn c s = false) :
    charIn c (replaceChar old new s) = false := by
  obtain ⟨l⟩ := s
  rw [replaceChar_data, charIn]
  rw [charIn] at h
  simp only [List.elem_eq_mem, decide_eq_false_iff_not] at h ⊢
  intro hmem
  rcases List.mem_map.mp hmem with ⟨c0, hc0, hmap⟩
  by_cases h0 : c0 = old
  · rw [if_pos h0] at hmap; exact hc hmap.symm
  · rw [if_neg h0] at hmap; exact h (hmap ▸ hc0)

theorem map_replace_injOn (old new : Char) :
    ∀ (l1 l2 : List Char), new ∉ l1 → new ∉ l2 →
      l1.map (fun c => if c = old then new else c) =
        l2.map (fun c => if c = old then new else c) → l1 = l2 := by
  intro l1
  induction l1 with
  | nil =>
    intro l2 _ _ hd
    cases l2 with
    | nil => rfl
    | cons b t2 => exact absurd hd (by simp)
  | cons a t1 ih =>
    intro l2 h1 h2 hd
    cases l2 with
    | nil => exact absurd hd (by simp)
    | cons b t2 =>
      simp only [List.map_cons, List.cons.injEq] at hd
      have han : a ≠ new := fun hc => h1 (hc ▸ List.mem_cons_self a t1)
      have hbn : b ≠ new := fun hc => h2 (hc ▸ List.mem_cons_self b t2)
      have hab : a = b := by
        by_cases hao : a = old <;> by_cases hbo : b = old
        · rw [hao, hbo]
        · rw [if_pos hao, if_neg hbo] at hd
          exact absurd hd.1.symm hbn
        · rw [if_neg hao, if_pos hbo] at hd
          exact absurd hd.1 han
        · rw [if_neg hao, if_neg hbo] at hd
          exact hd.1
      rw [hab, ih t2 (fun hc => h1 (List.mem_cons_of_mem _ hc))
        (fun hc => h2 (List.mem_cons_of_mem _ hc)) hd.2]

theorem replaceChar_injOn (old new : Char) (s1 s2 : String)
    (h1 : charIn new s1 = false) (h2 : charIn new s2 = false)
    (heq : replaceChar old new s1 = replaceChar old new s2) : s1 = s2 := by
  obtain ⟨l1⟩ := s1
  obtain ⟨l2⟩ := s2
  rw [replaceChar_data, replaceChar_data] at heq
  have hd : l1.map (fun c => if c = old then new else c) =
      l2.map (fun c => if c = old then new else c) := by
    injection heq
  rw [charIn] at h1 h2
  simp only [List.elem_eq_mem, decide_eq_false_iff_not] at h1 h2
  exact congrArg String.mk (map_replace_injOn old new l1 l2 h1 h2 hd)

theorem replaceChar_roundtrip (old new : Char) (s : String)
    (h : charIn new s = false) :
    replaceChar new old (replaceChar old new s) = s := by
  obtain ⟨l⟩ := s
  rw [charIn] at h
  simp only [List.elem_eq_mem, decide_eq_false_iff_not] at h
  rw [replaceChar_data, replaceChar_data]
  congr 1
  rw [List.map_map]
  conv_rhs => rw [← List.map_id l]
  apply List.map_congr_left
  intro c hc
  have hcn : c ≠ new := fun hcc => h (hcc ▸ hc)
  by_cases hco : c = old
  · simp [Function.comp, hco]
  · simp [Function.comp, hco, hcn]

theorem assocLookup_append_of_not_mem {A : Obj} {k : String}
    (h : k ∉ objKeys A) (l : Obj) :
    assocLookup (A ++ l) k = assocLookup l k := by
  induction A with
  | nil => rfl
  | cons e rest ih =>
    obtain ⟨k0, v0⟩ := e
    simp only [objKeys, List.map_cons, List.mem_cons] at h
    push_neg at h
    rw [List.cons_append, assocLookup, if_neg (fun hc => h.1 hc.symm)]
    exact ih (by simpa [objKeys] using h.2)

theorem assocSet_append_of_not_mem {A : Obj} {k : String}
    (h : k ∉ objKeys A) (l : Obj) (w : Value) :
    assocSet (A ++ l) k w = A ++ assocSet l k w := by
  induction A with
  | nil => rfl
  | cons e rest ih =>
    obtain ⟨k0, v0⟩ := e
    simp only [objKeys, List.map_cons, List.mem_cons] at h
    push_neg at h
    rw [List.cons_append, assocSet, if_neg (fun hc => h.1 hc.symm),
      List.cons_append, ih (by simpa [objKeys] using h.2)]

theorem assocRemove_append_of_not_mem {A : Obj} {k : String}
    (h : k ∉ objKeys A) (l : Obj) :
    assocRemove (A ++ l) k = A ++ assocRemove l k := by
  induction A with
  | nil => rfl
  | cons e rest ih =>
    obtain ⟨k0, v0⟩ := e
    simp only [objKeys, List.map_cons, List.mem_cons] at h
    push_neg at h
    rw [List.cons_append, assocRemove, if_neg (fun hc => h.1 hc.symm),
      List.cons_append, ih (by simpa [objKeys] using h.2)]

theorem assocSet_of_not_mem {l : Obj} {k : String} (h : k ∉ objKeys l)
    (w : Value) : assocSet l k w = l ++ [(k, w)] := by
  induction l with
  | nil => rfl
  | cons e rest ih =>
    obtain ⟨k0, v0⟩ := e
    simp only [objKeys, List.map_cons, List.mem_cons] at h
    push_neg at h
    rw [assocSet, if_neg (fun hc => h.1 hc.symm), List.cons_append,
      ih (by simpa [objKeys] using h.2)]

theorem goodObj_facts {bad : Char} {es : Obj} (h : goodObj bad es = true) :
    (objKeys es).Nodup ∧ (∀ kv ∈ es, charIn bad kv.1 = false) ∧
    (∀ kv ∈ es, goodVal bad kv.2 = true) := by
  induction es with
  | nil => exact ⟨List.nodup_nil, by simp, by simp⟩
  | cons e rest ih =>
    obtain ⟨k, v⟩ := e
    rw [goodObj] at h
    simp only [Bool.and_eq_true, Bool.not_eq_true', decide_eq_true_eq] at h
    obtain ⟨⟨⟨hk, hmem⟩, hv⟩, hrest⟩ := h
    obtain ⟨ih1, ih2, ih3⟩ := ih hrest
    refine ⟨?_, ?_, ?_⟩
    · simp only [objKeys, List.map_cons, List.nodup_cons]
      exact ⟨hmem, ih1⟩
    · intro kv hkv
      rcases List.mem_cons.mp hkv with h' | h'
      · rw [h']; exact hk
      · exact ih2 kv h'
    · intro kv hkv
      rcases List.mem_cons.mp hkv with h' | h'
      · rw [h']; exact hv
      · exact ih3 kv h'

theorem key_notin_passA {old new : Char} {done : Obj} {key : String}
    (h : key ∉ objKeys done) :
    key ∉ objKeys ((done.filter (fun kv => !charIn old kv.1)).map
      (fun kv => (kv.1, replace_in_keys old new kv.2))) := by
  intro hmem
  apply h
  rw [objKeys, List.map_map] at hmem
  rcases List.mem_map.mp hmem with ⟨kv, hkv, hfst⟩
  rw [objKeys]
  exact List.mem_map.mpr ⟨kv, List.mem_of_mem_filter hkv, hfst⟩

theorem newKey_notin_passB {old new : Char} {done : Obj} {key : String}
    (hnonew : ∀ kv ∈ done, charIn new kv.1 = false)
    (hkeynew : charIn new key = false)
    (h : key ∉ objKeys done) :
    replaceChar old new key ∉
      objKeys ((done.filter (fun kv => charIn old kv.1)).map
        (fun kv => (replaceChar old new kv.1, replace_in_keys old new kv.2))) := by
  intro hmem
  rw [objKeys, List.map_map] at hmem
  rcases List.mem_map.mp hmem with ⟨kv, hkv, hfst⟩
  have hkv' := List.mem_of_mem_filter hkv
  have heq : kv.1 = key :=
    replaceChar_injOn old new kv.1 key (hnonew kv hkv') hkeynew hfst
  apply h
  rw [← heq, objKeys]
  exact List.mem_map.mpr ⟨kv, hkv', rfl⟩

theorem newKey_notin_keys {old new : Char} {l : Obj} {key : String}
    (hnonew : ∀ kv ∈ l, charIn new kv.1 = false)
    (hkey : charIn old key = true) :
    replaceChar old new key ∉ objKeys l := by
  intro hmem
  rcases List.mem_map.mp hmem with ⟨kv, hkv, hfst⟩
  have h1 := charIn_replaceChar old new key hkey
  rw [← hfst] at h1
  rw [hnonew kv hkv] at h1
  exact absurd h1 (by simp)

theorem replaceKeysLoop_invariant (old new : Char) :
    ∀ (rest done : Obj),
      goodObj new (done ++ rest) = true →
      replaceKeysLoop old new rest
        ((done.filter (fun kv => !charIn old kv.1)).map
          (fun kv => (kv.1, replace_in_keys old new kv.2)) ++
         (rest ++
          (done.filter (fun kv => charIn old kv.1)).map
            (fun kv => (replaceChar old new kv.1, replace_in_keys old new kv.2))))
      = passResult old new (done ++ rest) := by
  intro rest
  induction rest with
  | nil =>
    intro done hgood
    rw [replaceKeysLoop, List.append_nil, List.nil_append]
    rw [passResult]
  | cons e rest' ih =>
    intro done hgood
    obtain ⟨key, value⟩ := e
    obtain ⟨hnodup, hnonew, _⟩ := goodObj_facts hgood
    have hkeysplit : objKeys (done ++ (key, value) :: rest') =
        objKeys done ++ key :: objKeys rest' := by
      simp [objKeys]
    rw [hkeysplit] at hnodup
    have hkeydone : key ∉ objKeys done := by
      rcases List.nodup_append.mp hnodup with ⟨_, _, hdisj⟩
      intro hc
      exact hdisj hc (List.mem_cons_self _ _)
    have hkeyrest : key ∉ objKeys rest' := by
      rcases List.nodup_append.mp hnodup with ⟨_, h2, _⟩
      exact (List.nodup_cons.mp h2).1
    have hkeynew : charIn new key = false :=
      hnonew (key, value) (by simp)
    have hkeyA : key ∉ objKeys ((done.filter (fun kv => !charIn old kv.1)).map
        (fun kv => (kv.1, replace_in_keys old new kv.2))) :=
      key_notin_passA hkeydone
    have hgood' : goodObj new ((done ++ [(key, value)]) ++ rest') = true := by
      rw [List.append_assoc, List.singleton_append]
      exact hgood
    have hdonefacts : ∀ kv ∈ done, charIn new kv.1 = false := fun kv hkv =>
      hnonew kv (List.mem_append_left _ hkv)
    have hrestfacts : ∀ kv ∈ rest', charIn new kv.1 = false := fun kv hkv =>
      hnonew kv (List.mem_append_right _ (List.mem_cons_of_mem _ hkv))
    have hlook1 : assocLookup
        ((done.filter (fun kv => !charIn old kv.1)).map
          (fun kv => (kv.1, replace_in_keys old new kv.2)) ++
         ((key, value) :: (rest' ++
          (done.filter (fun kv => charIn old kv.1)).map
            (fun kv => (replaceChar old new kv.1, replace_in_keys old new kv.2)))))
        key = some value := by
      rw [assocLookup_append_of_not_mem hkeyA, assocLookup, if_pos rfl]
    have hset1 : assocSet
        ((done.filter (fun kv => !charIn old kv.1)).map
          (fun kv => (kv.1, replace_in_keys old new kv.2)) ++
         ((key, value) :: (rest' ++
          (done.filter (fun kv => charIn old kv.1)).map
            (fun kv => (replaceChar old new kv.1, replace_in_keys old new kv.2)))))
        key (replace_in_keys old new value) =
        ((done.filter (fun kv => !charIn old kv.1)).map
          (fun kv => (kv.1, replace_in_keys old new kv.2)) ++
         ((key, replace_in_keys old new value) :: (rest' ++
          (done.filter (fun kv => charIn old kv.1)).map
            (fun kv => (replaceChar old new kv.1, replace_in_keys old new kv.2))))) := by
      rw [assocSet_append_of_not_mem hkeyA, assocSet, if_pos rfl]
    rw [replaceKeysLoop]
    simp only [List.cons_append] at hlook1 hset1 ⊢
    rw [hlook1]
    simp only [Option.isSome_some, if_true, hset1]
    by_cases hc : charIn old key
    · -- re-keyed entry: moved to the end under the fresh key
      have hlook2 : assocLookup
          ((done.filter (fun kv => !charIn old kv.1)).map
            (fun kv => (kv.1, replace_in_keys old new kv.2)) ++
           ((key, replace_in_keys old new value) :: (rest' ++
            (done.filter (fun kv => charIn old kv.1)).map
              (fun kv => (replaceChar old new kv.1, replace_in_keys old new kv.2)))))
          key = some (replace_in_keys old new value) := by
        rw [assocLookup_append_of_not_mem hkeyA, assocLookup, if_pos rfl]
      have hrem : assocRemove
          ((done.filter (fun kv => !charIn old kv.1)).map
            (fun kv => (kv.1, replace_in_keys old new kv.2)) ++
           ((key, replace_in_keys old new value) :: (rest' ++
            (done.filter (fun kv => charIn old kv.1)).map
              (fun kv => (replaceChar old new kv.1, replace_in_keys old new kv.2)))))
          key =
          ((done.filter (fun kv => !charIn old kv.1)).map
            (fun kv => (kv.1, replace_in_keys old new kv.2)) ++
           (rest' ++
            (done.filter (fun kv => charIn old kv.1)).map
              (fun kv => (replaceChar old new kv.1, replace_in_keys old new kv.2)))) := by
        rw [assocRemove_append_of_not_mem hkeyA, assocRemove, if_pos rfl]
      have hnewnotin : replaceChar old new key ∉ objKeys
          ((done.filter (fun kv => !charIn old kv.1)).map
            (fun kv => (kv.1, replace_in_keys old new kv.2)) ++
           (rest' ++
            (done.filter (fun kv => charIn old kv.1)).map
              (fun kv => (replaceChar old new kv.1, replace_in_keys old new kv.2)))) := by
        intro hmem
        have hAnonew : ∀ kv ∈ (done.filter (fun kv => !charIn old kv.1)).map
            (fun kv => (kv.1, replace_in_keys old new kv.2)),
            charIn new kv.1 = false := by
          intro kv hkv
          rcases List.mem_map.mp hkv with ⟨kv0, hkv0, hmap⟩
          rw [← hmap]
          exact hdonefacts kv0 (List.mem_of_mem_filter hkv0)
        rw [objKeys, List.map_append] at hmem
        rcases List.mem_append.mp hmem with h' | h'
        · exact (newKey_notin_keys hAnonew hc) h'
        · rw [List.map_append] at h'
          rcases List.mem_append.mp h' with h'' | h''
          · exact (newKey_notin_keys hrestfacts hc) h''
          · exact (newKey_notin_passB hdonefacts hkeynew hkeydone) h''
      have hset2 : assocSet
          ((done.filter (fun kv => !charIn old kv.1)).map
            (fun kv => (kv.1, replace_in_keys old new kv.2)) ++
           (rest' ++
            (done.filter (fun kv => charIn old kv.1)).map
              (fun kv => (replaceChar old new kv.1, replace_in_keys old new kv.2))))
          (replaceChar old new key) (replace_in_keys old new value) =
          ((done.filter (fun kv => !charIn old kv.1)).map
            (fun kv => (kv.1, replace_in_keys old new kv.2)) ++
           (rest' ++
            ((done.filter (fun kv => charIn old kv.1)).map
              (fun kv => (replaceChar old new kv.1, replace_in_keys old new kv.2)) ++
             [(replaceChar old new key, replace_in_keys old new value)]))) := by
        rw [assocSet_of_not_mem hnewnotin]
        simp [List.append_assoc]
      rw [if_pos hc]
      simp only [hlook2]
      rw [hrem, hset2]
      have hstep := ih (done ++ [(key, value)]) hgood'
      have hA' : ((done ++ [(key, value)]).filter
          (fun kv => !charIn old kv.1)).map
            (fun kv => (kv.1, replace_in_keys old new kv.2)) =
          (done.filter (fun kv => !charIn old kv.1)).map
            (fun kv => (kv.1, replace_in_keys old new kv.2)) := by
        simp [List.filter_append, List.filter_singleton, hc]
      have hB' : ((done ++ [(key, value)]).filter
          (fun kv => charIn old kv.1)).map
            (fun kv => (replaceChar old new kv.1, replace_in_keys old new kv.2)) =
          (done.filter (fun kv => charIn old kv.1)).map
            (fun kv => (replaceChar old new kv.1, replace_in_keys old new kv.2)) ++
          [(replaceChar old new key, replace_in_keys old new value)] := by
        simp [List.filter_append, List.filter_singleton, hc]
      rw [hA', hB'] at hstep
      rw [List.append_assoc, List.singleton_append] at hstep
      exact hstep
    · -- key untouched: the entry stays in place with a rewritten value
      rw [if_neg hc]
      have hstep := ih (done ++ [(key, value)]) hgood'
      have hA' : ((done ++ [(key, value)]).filter
          (fun kv => !charIn old kv.1)).map
            (fun kv => (kv.1, replace_in_keys old new kv.2)) =
          (done.filter (fun kv => !charIn old kv.1)).map
            (fun kv => (kv.1, replace_in_keys old new kv.2)) ++
          [(key, replace_in_keys old new value)] := by
        have hc2 : charIn old key = false := by simpa using hc
        simp [List.filter_append, List.filter_singleton, hc2]
      have hB' : ((done ++ [(key, value)]).filter
          (fun kv => charIn old kv.1)).map
            (fun kv => (replaceChar old new kv.1, replace_in_keys old new kv.2)) =
          (done.filter (fun kv => charIn old kv.1)).map
            (fun kv => (replaceChar old new kv.1, replace_in_keys old new kv.2)) := by
        have hc2 : charIn old key = false := by simpa using hc
        simp [List.filter_append, List.filter_singleton, hc2]
      rw [hA', hB'] at hstep
      rw [List.append_assoc, List.singleton_append] at hstep
      rw [List.append_assoc, List.singleton_append] at hstep
      exact hstep

theorem replaceObjKeys_eq_passResult (old new : Char) (es : Obj)
    (hgood : goodObj new es = true) :
    replaceObjKeys old new es = passResult old new es := by
  have h := replaceKeysLoop_invariant old new es [] (by simpa using hgood)
  rw [replaceObjKeys]
  simpa using h

theorem goodObj_of_facts {bad : Char} {es : Obj}
    (h1 : (objKeys es).Nodup) (h2 : ∀ kv ∈ es, charIn bad kv.1 = false)
    (h3 : ∀ kv ∈ es, goodVal bad kv.2 = true) : goodObj bad es = true := by
  induction es with
  | nil => rfl
  | cons e rest ih =>
    obtain ⟨k, v⟩ := e
    rw [goodObj]
    simp only [objKeys, List.map_cons, List.nodup_cons] at h1
    simp only [Bool.and_eq_true, Bool.not_eq_true', decide_eq_true_eq]
    refine ⟨⟨⟨h2 (k, v) (by simp), h1.1⟩, h3 (k, v) (by simp)⟩, ?_⟩
    exact ih h1.2 (fun kv hkv => h2 kv (by simp [hkv]))
      (fun kv hkv => h3 kv (by simp [hkv]))

theorem assocLookup_of_mem_nodup {es : Obj} {k : String} {v : Value}
    (hnodup : (objKeys es).Nodup) (hmem : (k, v) ∈ es) :
    assocLookup es k = some v := by
  induction es with
  | nil => exact absurd hmem (by simp)
  | cons e rest ih =>
    obtain ⟨k0, v0⟩ := e
    simp only [objKeys, List.map_cons, List.nodup_cons] at hnodup
    rcases List.mem_cons.mp hmem with h | h
    · have hkv : k = k0 ∧ v = v0 := by
        constructor
        · exact congrArg Prod.fst h.symm |>.symm
        · exact congrArg Prod.snd h.symm |>.symm
      rw [assocLookup, if_pos hkv.1.symm, hkv.2]
    · have hk : k0 ≠ k := by
        intro hc
        apply hnodup.1
        rw [hc]
        exact List.mem_map.mpr ⟨(k, v), h, rfl⟩
      rw [assocLookup, if_neg hk]
      exact ih hnodup.2 h

theorem objKeys_passA (old new : Char) (l : Obj) :
    objKeys ((l.filter (fun kv => !charIn old kv.1)).map
      (fun kv => (kv.1, replace_in_keys old new kv.2))) =
    (l.filter (fun kv => !charIn old kv.1)).map (fun kv => kv.1) := by
  rw [objKeys, List.map_map]
  rfl

theorem objKeys_passB (old new : Char) (l : Obj) :
    objKeys ((l.filter (fun kv => charIn old kv.1)).map
      (fun kv => (replaceChar old new kv.1, replace_in_keys old new kv.2))) =
    ((l.filter (fun kv => charIn old kv.1)).map (fun kv => kv.1)).map
      (replaceChar old new) := by
  rw [objKeys, List.map_map, List.map_map]
  rfl

theorem passResult_keys_nodup (old new : Char) {es : Obj}
    (hnodup : (objKeys es).Nodup)
    (hnonew : ∀ kv ∈ es, charIn new kv.1 = false) :
    (objKeys (passResult old new es)).Nodup := by
  rw [passResult, objKeys, List.map_append]
  have hA := objKeys_passA old new es
  have hB := objKeys_passB old new es
  rw [objKeys] at hA hB
  rw [hA, hB]
  have hsubA : ((es.filter (fun kv => !charIn old kv.1)).map
      (fun kv => kv.1)).Sublist (objKeys es) :=
    List.Sublist.map _ (List.filter_sublist es)
  have hsubB : ((es.filter (fun kv => charIn old kv.1)).map
      (fun kv => kv.1)).Sublist (objKeys es) :=
    List.Sublist.map _ (List.filter_sublist es)
  refine List.nodup_append.mpr ⟨hsubA.nodup hnodup, ?_, ?_⟩
  · apply List.Nodup.map_on
    · intro x hx y hy hxy
      rcases List.mem_map.mp hx with ⟨kvx, hkvx, hfx⟩
      rcases List.mem_map.mp hy with ⟨kvy, hkvy, hfy⟩
      have hxnew : charIn new x = false := by
        rw [← hfx]; exact hnonew kvx (List.mem_of_mem_filter hkvx)
      have hynew : charIn new y = false := by
        rw [← hfy]; exact hnonew kvy (List.mem_of_mem_filter hkvy)
      exact replaceChar_injOn old new x y hxnew hynew hxy
    · exact hsubB.nodup hnodup
  · intro a haA haB
    rcases List.mem_map.mp haA with ⟨kva, hkva, hfa⟩
    have hanew : charIn new a = false := by
      rw [← hfa]; exact hnonew kva (List.mem_of_mem_filter hkva)
    rcases List.mem_map.mp haB with ⟨b, hbmem, hfb⟩
    rcases List.mem_map.mp hbmem with ⟨kvb, hkvb, hfbb⟩
    have hbold0 := List.of_mem_filter hkvb
    have hbold : charIn old kvb.1 = true := hbold0
    have : charIn new a = true := by
      rw [← hfb, ← hfbb]
      exact charIn_replaceChar old new kvb.1 hbold
    rw [hanew] at this
    exact absurd this (by simp)

theorem good_replace_aux (old new : Char) (hne : old ≠ new) : ∀ (n : Nat),
    ∀ v : Value, sizeOf v ≤ n → goodVal new v = true →
      goodVal old (replace_in_keys old new v) = true := by
  intro n
  induction n with
  | zero =>
    intro v hsz _
    exfalso
    cases v <;> simp at hsz
  | succ n ih =>
    intro v hsz hgood
    cases v with
    | vnull => simp [replace_in_keys.eq_def, goodVal]
    | vbool b => simp [replace_in_keys.eq_def, goodVal]
    | vint m => simp [replace_in_keys.eq_def, goodVal]
    | vstr s => simp [replace_in_keys.eq_def, goodVal]
    | vset t => simp [replace_in_keys.eq_def, goodVal]
    | vlist xs =>
      rw [goodVal] at hgood
      have hrw : replace_in_keys old new (.vlist xs) =
          .vlist (replaceKeysList old new xs) := by
        rw [replace_in_keys]
      rw [hrw, goodVal]
      have hsz' : ∀ y ∈ xs, sizeOf y ≤ n := by
        intro y hy
        have h1 := List.sizeOf_lt_of_mem hy
        simp at hsz
        omega
      clear hsz hrw
      induction xs with
      | nil => rw [replaceKeysList]; rfl
      | cons y ys ihy =>
        rw [replaceKeysList, goodList]
        rw [goodList] at hgood
        simp only [Bool.and_eq_true] at hgood ⊢
        refine ⟨ih y (hsz' y (by simp)) hgood.1, ?_⟩
        exact ihy hgood.2 (fun y hy => hsz' y (by simp [hy]))
    | vdict es =>
      rw [goodVal] at hgood
      obtain ⟨hnodup, hnonew, hvals⟩ := goodObj_facts hgood
      have hrw : replace_in_keys old new (.vdict es) =
          .vdict (passResult old new es) := by
        rw [replace_in_keys]
        rw [show replaceKeysLoop old new es es = replaceObjKeys old new es from rfl]
        rw [replaceObjKeys_eq_passResult old new es hgood]
      rw [hrw, goodVal]
      apply goodObj_of_facts
      · exact passResult_keys_nodup old new hnodup hnonew
      · intro kv hkv
        rw [passResult] at hkv
        rcases List.mem_append.mp hkv with h' | h'
        · rcases List.mem_map.mp h' with ⟨kv0, hkv0, hmap⟩
          rw [← hmap]
          have := List.of_mem_filter hkv0
          simpa using this
        · rcases List.mem_map.mp h' with ⟨kv0, hkv0, hmap⟩
          rw [← hmap]
          exact charIn_replaceChar_old old new hne kv0.1
      · intro kv hkv
        rw [passResult] at hkv
        have hszes : sizeOf es ≤ n := by simp at hsz; omega
        rcases List.mem_append.mp hkv with h' | h' <;>
        · rcases List.mem_map.mp h' with ⟨kv0, hkv0, hmap⟩
          rw [← hmap]
          have hmem0 : kv0 ∈ es := List.mem_of_mem_filter hkv0
          have hszv : sizeOf kv0.2 ≤ n := by
            have h1 := List.sizeOf_lt_of_mem hmem0
            obtain ⟨k0, v0⟩ := kv0
            simp at h1 ⊢
            omega
          exact ih kv0.2 hszv (hvals kv0 hmem0)

theorem rtObj_eq (es : Obj) :
    rtObj es =
      ((es.filter (fun kv => !charIn '_' kv.1)).map
        (fun kv => (kv.1, rtResultVal kv.2)),
       (es.filter (fun kv => charIn '_' kv.1)).map
        (fun kv => (kv.1, rtResultVal kv.2))) := by
  induction es with
  | nil => rfl
  | cons e rest ih =>
    obtain ⟨k, v⟩ := e
    rw [rtObj, ih]
    by_cases hc : charIn '_' k
    · simp [hc, List.filter_cons]
    · have hc2 : charIn '_' k = false := by simpa using hc
      simp [hc2, List.filter_cons]

theorem sameKeyEntries_append (l1 l2 b : Obj) :
    sameKeyEntries (l1 ++ l2) b =
      (sameKeyEntries l1 b && sameKeyEntries l2 b) := by
  induction l1 with
  | nil =>
    rw [List.nil_append, sameKeyEntries]
    simp
  | cons e rest ih =>
    obtain ⟨k, v⟩ := e
    rw [List.cons_append, sameKeyEntries, sameKeyEntries, ih, Bool.and_assoc]

theorem rt_shape_aux : ∀ (n : Nat) (v : Value), sizeOf v ≤ n →
    goodVal '-' v = true → sameKeyShape (rtResultVal v) v = true := by
  intro n
  induction n with
  | zero =>
    intro v hsz _
    exfalso
    cases v <;> simp at hsz
  | succ n ih =>
    intro v hsz hgood
    cases v with
    | vnull => simp [rtResultVal.eq_def, sameKeyShape.eq_def]
    | vbool b => simp [rtResultVal.eq_def, sameKeyShape.eq_def]
    | vint m => simp [rtResultVal.eq_def, sameKeyShape.eq_def]
    | vstr s => simp [rtResultVal.eq_def, sameKeyShape.eq_def]
    | vset t => simp [rtResultVal.eq_def, sameKeyShape.eq_def]
    | vlist xs =>
      rw [goodVal] at hgood
      have hrw : rtResultVal (.vlist xs) = .vlist (rtResultList xs) := by
        rw [rtResultVal]
      rw [hrw]
      have hshape : sameKeyShape (.vlist (rtResultList xs)) (.vlist xs) =
          sameKeyList (rtResultList xs) xs := by
        rw [sameKeyShape]
      rw [hshape]
      have hsz' : ∀ y ∈ xs, sizeOf y ≤ n := by
        intro y hy
        have h1 := List.sizeOf_lt_of_mem hy
        simp at hsz
        omega
      clear hsz hrw hshape
      induction xs with
      | nil => rw [rtResultList, sameKeyList]
      | cons y ys ihy =>
        rw [rtResultList, sameKeyList]
        rw [goodList] at hgood
        simp only [Bool.and_eq_true] at hgood ⊢
        refine ⟨ih y (hsz' y (by simp)) hgood.1, ?_⟩
        exact ihy hgood.2 (fun y hy => hsz' y (by simp [hy]))
    | vdict es =>
      rw [goodVal] at hgood
      obtain ⟨hnodup, hnohyph, hvals⟩ := goodObj_facts hgood
      have hszes : ∀ kv ∈ es, sizeOf kv.2 ≤ n := by
        intro kv hkv
        have h1 := List.sizeOf_lt_of_mem hkv
        obtain ⟨k0, v0⟩ := kv
        simp at hsz h1 ⊢
        omega
      have hrw : rtResultVal (.vdict es) =
          .vdict ((es.filter (fun kv => !charIn '_' kv.1)).map
            (fun kv => (kv.1, rtResultVal kv.2)) ++
          (es.filter (fun kv => charIn '_' kv.1)).map
            (fun kv => (kv.1, rtResultVal kv.2))) := by
        rw [rtResultVal, rtObj_eq]
      rw [hrw]
      have hshape : sameKeyShape
          (.vdict ((es.filter (fun kv => !charIn '_' kv.1)).map
            (fun kv => (kv.1, rtResultVal kv.2)) ++
          (es.filter (fun kv => charIn '_' kv.1)).map
            (fun kv => (kv.1, rtResultVal kv.2)))) (.vdict es) =
          (decide ((objKeys ((es.filter (fun kv => !charIn '_' kv.1)).map
            (fun kv => (kv.1, rtResultVal kv.2)) ++
          (es.filter (fun kv => charIn '_' kv.1)).map
            (fun kv => (kv.1, rtResultVal kv.2))) : Multiset String) =
              (objKeys es : Multiset String)) &&
           sameKeyEntries ((es.filter (fun kv => !charIn '_' kv.1)).map
            (fun kv => (kv.1, rtResultVal kv.2)) ++
          (es.filter (fun kv => charIn '_' kv.1)).map
            (fun kv => (kv.1, rtResultVal kv.2))) es) := by
        rw [sameKeyShape]
      rw [hshape]
      simp only [Bool.and_eq_true, decide_eq_true_eq]
      constructor
      · apply Multiset.coe_eq_coe.mpr
        rw [objKeys, objKeys, List.map_append, List.map_map, List.map_map]
        have hperm : List.Perm
            (es.filter (fun kv => !charIn '_' kv.1) ++
             es.filter (fun kv => charIn '_' kv.1)) es := by
          have h := List.filter_append_perm (fun kv => !charIn '_' kv.1) es
          simpa [Bool.not_not] using h
        have := hperm.map (Prod.fst)
        rw [List.map_append] at this
        exact this
      · have hpart : ∀ (l : Obj), (∀ kv ∈ l, kv ∈ es) →
            sameKeyEntries (l.map (fun kv => (kv.1, rtResultVal kv.2))) es =
              true := by
          intro l
          induction l with
          | nil => intro _; rw [List.map_nil, sameKeyEntries]
          | cons kv0 rest ihl =>
            intro hsub
            obtain ⟨k0, v0⟩ := kv0
            rw [List.map_cons, sameKeyEntries]
            have hmem := hsub (k0, v0) (by simp)
            have hlk : assocLookup es k0 = some v0 :=
              assocLookup_of_mem_nodup hnodup hmem
            simp only [hlk, Bool.and_eq_true]
            refine ⟨ih v0 (hszes (k0, v0) hmem) (hvals (k0, v0) hmem), ?_⟩
            exact ihl (fun kv hkv => hsub kv (by simp [hkv]))
        rw [sameKeyEntries_append]
        simp only [Bool.and_eq_true]
        exact ⟨hpart _ (fun kv hkv => List.mem_of_mem_filter hkv),
          hpart _ (fun kv hkv => List.mem_of_mem_filter hkv)⟩

theorem filter_map_keep {α β : Type} (f : α → β) (p : β → Bool) (l : List α)
    (h : ∀ a ∈ l, p (f a) = true) : (l.map f).filter p = l.map f := by
  apply List.filter_eq_self.mpr
  intro b hb
  rcases List.mem_map.mp hb with ⟨a, ha, hfa⟩
  rw [← hfa]
  exact h a ha

theorem filter_map_drop {α β : Type} (f : α → β) (p : β → Bool) (l : List α)
    (h : ∀ a ∈ l, p (f a) = false) : (l.map f).filter p = [] := by
  rw [List.filter_eq_nil_iff]
  intro b hb
  rcases List.mem_map.mp hb with ⟨a, ha, hfa⟩
  rw [← hfa]
  simp [h a ha]

theorem passResult_pass2 (es : Obj)
    (hnohyph : ∀ kv ∈ es, charIn '-' kv.1 = false) :
    passResult '-' '_' (passResult '_' '-' es) =
      (es.filter (fun kv => !charIn '_' kv.1)).map
        (fun kv => (kv.1,
          replace_in_keys '-' '_' (replace_in_keys '_' '-' kv.2))) ++
      (es.filter (fun kv => charIn '_' kv.1)).map
        (fun kv => (kv.1,
          replace_in_keys '-' '_' (replace_in_keys '_' '-' kv.2))) := by
  have hA1 : ((es.filter (fun kv => !charIn '_' kv.1)).map
      (fun kv => (kv.1, replace_in_keys '_' '-' kv.2))).filter
      (fun kv => !charIn '-' kv.1) =
      (es.filter (fun kv => !charIn '_' kv.1)).map
        (fun kv => (kv.1, replace_in_keys '_' '-' kv.2)) := by
    apply filter_map_keep
    intro kv hkv
    simpa using hnohyph kv (List.mem_of_mem_filter hkv)
  have hA2 : ((es.filter (fun kv => !charIn '_' kv.1)).map
      (fun kv => (kv.1, replace_in_keys '_' '-' kv.2))).filter
      (fun kv => charIn '-' kv.1) = [] := by
    apply filter_map_drop
    intro kv hkv
    exact hnohyph kv (List.mem_of_mem_filter hkv)
  have hB1 : ((es.filter (fun kv => charIn '_' kv.1)).map
      (fun kv => (replaceChar '_' '-' kv.1,
        replace_in_keys '_' '-' kv.2))).filter
      (fun kv => !charIn '-' kv.1) = [] := by
    apply filter_map_drop
    intro kv hkv
    have hold0 := List.of_mem_filter hkv
    have hold : charIn '_' kv.1 = true := hold0
    simpa using charIn_replaceChar '_' '-' kv.1 hold
  have hB2 : ((es.filter (fun kv => charIn '_' kv.1)).map
      (fun kv => (replaceChar '_' '-' kv.1,
        replace_in_keys '_' '-' kv.2))).filter
      (fun kv => charIn '-' kv.1) =
      (es.filter (fun kv => charIn '_' kv.1)).map
        (fun kv => (replaceChar '_' '-' kv.1,
          replace_in_keys '_' '-' kv.2)) := by
    apply filter_map_keep
    intro kv hkv
    have hold0 := List.of_mem_filter hkv
    have hold : charIn '_' kv.1 = true := hold0
    exact charIn_replaceChar '_' '-' kv.1 hold
  rw [passResult, passResult, List.filter_append, List.filter_append,
      hA1, hA2, hB1, hB2, List.append_nil, List.nil_append,
      List.map_map, List.map_map]
  congr 1
  apply List.map_congr_left
  intro kv hkv
  have hh : charIn '-' kv.1 = false :=
    hnohyph kv (List.mem_of_mem_filter hkv)
  simp only [Function.comp]
  rw [replaceChar_roundtrip '_' '-' kv.1 hh]

theorem roundtrip_eq_aux : ∀ (n : Nat) (v : Value), sizeOf v ≤ n →
    goodVal '-' v = true →
    replace_in_keys '-' '_' (replace_in_keys '_' '-' v) = rtResultVal v := by
  intro n
  induction n with
  | zero =>
    intro v hsz _
    exfalso
    cases v <;> simp at hsz
  | succ n ih =>
    intro v hsz hgood
    cases v with
    | vnull => simp [replace_in_keys.eq_def, rtResultVal.eq_def]
    | vbool b => simp [replace_in_keys.eq_def, rtResultVal.eq_def]
    | vint m => simp [replace_in_keys.eq_def, rtResultVal.eq_def]
    | vstr s => simp [replace_in_keys.eq_def, rtResultVal.eq_def]
    | vset t => simp [replace_in_keys.eq_def, rtResultVal.eq_def]
    | vlist xs =>
      rw [goodVal] at hgood
      have h1 : replace_in_keys '_' '-' (.vlist xs) =
          .vlist (replaceKeysList '_' '-' xs) := by
        rw [replace_in_keys]
      have h2 : rtResultVal (.vlist xs) = .vlist (rtResultList xs) := by
        rw [rtResultVal]
      have h3 : replace_in_keys '-' '_' (.vlist (replaceKeysList '_' '-' xs)) =
          .vlist (replaceKeysList '-' '_' (replaceKeysList '_' '-' xs)) := by
        rw [replace_in_keys]
      rw [h1, h3, h2]
      congr 1
      have hsz' : ∀ y ∈ xs, sizeOf y ≤ n := by
        intro y hy
        have h4 := List.sizeOf_lt_of_mem hy
        simp at hsz
        omega
      clear hsz h1 h2 h3
      induction xs with
      | nil => rw [replaceKeysList, replaceKeysList, rtResultList]
      | cons y ys ihy =>
        rw [goodList] at hgood
        simp only [Bool.and_eq_true] at hgood
        rw [replaceKeysList, replaceKeysList, rtResultList]
        congr 1
        · exact ih y (hsz' y (by simp)) hgood.1
        · exact ihy hgood.2 (fun z hz => hsz' z (by simp [hz]))
    | vdict es =>
      rw [goodVal] at hgood
      obtain ⟨hnodup, hnohyph, hvals⟩ := goodObj_facts hgood
      have hszes : ∀ kv ∈ es, sizeOf kv.2 ≤ n := by
        intro kv hkv
        have h4 := List.sizeOf_lt_of_mem hkv
        obtain ⟨k0, v0⟩ := kv
        simp at hsz h4 ⊢
        omega
      have hrw1 : replace_in_keys '_' '-' (.vdict es) =
          .vdict (passResult '_' '-' es) := by
        rw [replace_in_keys]
        rw [show replaceKeysLoop '_' '-' es es =
          replaceObjKeys '_' '-' es from rfl]
        rw [replaceObjKeys_eq_passResult '_' '-' es hgood]
      have hgood1 : goodObj '_' (passResult '_' '-' es) = true := by
        have h5 := good_replace_aux '_' '-' (by decide)
          (sizeOf (Value.vdict es)) (Value.vdict es) (le_refl _)
          (by rw [goodVal]; exact hgood)
        rw [hrw1, goodVal] at h5
        exact h5
      have hrw2 : replace_in_keys '-' '_' (.vdict (passResult '_' '-' es)) =
          .vdict (passResult '-' '_' (passResult '_' '-' es)) := by
        rw [replace_in_keys]
        rw [show replaceKeysLoop '-' '_' (passResult '_' '-' es)
          (passResult '_' '-' es) =
          replaceObjKeys '-' '_' (passResult '_' '-' es) from rfl]
        rw [replaceObjKeys_eq_passResult '-' '_' _ hgood1]
      have hrt : rtResultVal (.vdict es) =
          .vdict ((es.filter (fun kv => !charIn '_' kv.1)).map
            (fun kv => (kv.1, rtResultVal kv.2)) ++
          (es.filter (fun kv => charIn '_' kv.1)).map
            (fun kv => (kv.1, rtResultVal kv.2))) := by
        rw [rtResultVal, rtObj_eq]
      rw [hrw1, hrw2, passResult_pass2 es hnohyph, hrt]
      congr 1
      congr 1
      · apply List.map_congr_left
        intro kv hkv
        have hmem := List.mem_of_mem_filter hkv
        rw [ih kv.2 (hszes kv hmem) (hvals kv hmem)]
      · apply List.map_congr_left
        intro kv hkv
        have hmem := List.mem_of_mem_filter hkv
        rw [ih kv.2 (hszes kv hmem) (hvals kv hmem)]

/-- C8 counterexample: the claim quantifies over every nested structure, but
a key that already contains a hyphen is not restored by the round trip — the
second pass turns its hyphen into an underscore, so
`{"a-b": null}` comes back as `{"a_b": null}` and the key set differs. -/
theorem replace_in_keys_roundtrip_counterexample :
    replace_in_keys '-' '_' (replace_in_keys '_' '-'
      (Value.vdict [("a-b", Value.vnull)])) =
      Value.vdict [("a_b", Value.vnull)] ∧
    ("a_b" : String) ≠ "a-b" :=
  ⟨rfl, by decide⟩

/-- C8 (amended): for every nested structure of mappings and sequences whose
dict keys — at every depth — are duplicate-free and hyphen-free, the
underscore→hyphen→underscore round trip reproduces the original key multiset
at every nesting depth (each dict's entries possibly reordered, values
round-tripped in the same way); and for either single rewrite, an entry whose
key lacks the character being replaced keeps its key unchanged (its value
rewritten recursively) in the output dict. -/
theorem replace_in_keys_roundtrip_spec (v : Value) (old new : Char)
    (es : Obj) (k : String) (w : Value)
    (hv : goodVal '-' v = true) (hes : goodObj new es = true)
    (hmem : (k, w) ∈ es) (hk : charIn old k = false) :
    sameKeyShape (replace_in_keys '-' '_' (replace_in_keys '_' '-' v)) v
      = true ∧
    (k, replace_in_keys old new w) ∈ replaceObjKeys old new es := by
  constructor
  · rw [roundtrip_eq_aux (sizeOf v) v (le_refl _) hv]
    exact rt_shape_aux (sizeOf v) v (le_refl _) hv
  · rw [replaceObjKeys_eq_passResult old new es hes, passResult]
    apply List.mem_append.mpr
    left
    apply List.mem_map.mpr
    refine ⟨(k, w), ?_, rfl⟩
    apply List.mem_filter.mpr
    exact ⟨hmem, by simp [hk]⟩

/-- Witness for `replace_in_keys_roundtrip_spec` at a concrete nested value
(a dict holding a list of dicts) and a concrete underscore-free entry. -/
theorem replace_in_keys_roundtrip_spec_witness :
    goodVal '-' (Value.vdict [("a_b", Value.vnull),
      ("cd", Value.vlist [Value.vdict [("e_f", Value.vbool true)]])]) = true ∧
    goodObj '-' [(("gh" : String), Value.vint 7)] = true ∧
    (("gh" : String), Value.vint 7) ∈ [(("gh" : String), Value.vint 7)] ∧
    charIn '_' "gh" = false ∧
    (sameKeyShape (replace_in_keys '-' '_' (replace_in_keys '_' '-'
        (Value.vdict [("a_b", Value.vnull),
          ("cd", Value.vlist [Value.vdict [("e_f", Value.vbool true)]])])))
      (Value.vdict [("a_b", Value.vnull),
        ("cd", Value.vlist [Value.vdict [("e_f", Value.vbool true)]])])
      = true ∧
     (("gh" : String), replace_in_keys '_' '-' (Value.vint 7)) ∈
       replaceObjKeys '_' '-' [(("gh" : String), Value.vint 7)]) := by
  have hv : goodVal '-' (Value.vdict [("a_b", Value.vnull),
      ("cd", Value.vlist [Value.vdict [("e_f", Value.vbool true)]])])
      = true := by
    simp [goodVal, goodObj, goodList, objKeys, charIn]
  have hes : goodObj '-' [(("gh" : String), Value.vint 7)] = true := by
    simp [goodObj, goodVal, objKeys, charIn]
  have hmem : (("gh" : String), Value.vint 7) ∈
      [(("gh" : String), Value.vint 7)] := by simp
  have hk : charIn '_' "gh" = false := by decide
  exact ⟨hv, hes, hmem, hk,
    replace_in_keys_roundtrip_spec _ '_' '-' _ "gh" (Value.vint 7)
      hv hes hmem hk⟩

end GGShield
